import Mathlib

/-!
Verification of the recorded-session playback engine (`disk_read_base.cpp`)
of the realsense_sdk repository.

Shallow embedding conventions:
* `uint64_t` timestamp values are modelled as `Nat` with explicit wrap-around
  (`% 2^64`) where the source performs unsigned arithmetic whose intermediate
  values may wrap, and the `static_cast<int>` in `calc_sleep_time` is modelled
  as truncation to a signed 32-bit value.
* Container sizes and positions (`std::vector::size`, descriptor indices) are
  modelled as `Nat`; this is sound for recordings with fewer than `2^32`
  samples, which the engine assumes throughout.
* `std::map` members are modelled as association lists (`List (Nat × α)`)
  whose keys are kept unique; `operator[]` on a missing key default-constructs
  the mapped value, which the embedding mirrors explicitly.
* The background reader is modelled single-threaded: each control operation
  and each loop iteration is an atomic step on the engine state, matching the
  single-writer protocol the implementation enforces via `pause()`/join and
  the `m_mutex` lock.
* Code of the repository that is not part of the provided sources
  (the derived-class indexer `index_next_samples`, the `file` read primitive,
  the codec `decoder`, and two header constants) is modelled from the spec;
  each such definition carries a doc comment starting `Modelled from the
  spec:`.
-/

namespace Playback

/-- `rs::core::file_types::sample_type` (the variants dispatched on by the
playback engine). -/
inductive SampleType
  | st_image
  | st_motion
  | st_time
  | st_debug_event
deriving DecidableEq

/-- `rs::core::file_types::compression_type` as dispatched in
`read_image_buffer`: raw, the two codec-backed kinds, and everything else
(which hits the `default:` throw). -/
inductive CompressionType
  | comp_none
  | lz4
  | h264
  | other (code : Nat)
deriving DecidableEq

/-- A sample descriptor (`file_types::sample` / `file_types::frame_sample`).
The C++ uses a base class plus a downcast to `frame_sample`; the embedding
flattens the hierarchy: the frame fields (`stream`, `time_stamp`, `ctype`,
`data`) are meaningful only when `type = st_image`, mirroring the fact that
the source consults them only after checking the sample type. -/
structure Sample where
  /-- `info.type` -/
  type : SampleType
  /-- `info.capture_time` (uint64) -/
  capture_time : Nat
  /-- `info.offset` (uint64 byte offset of the record) -/
  offset : Nat
  /-- `finfo.stream` (`rs_stream`, modelled as a numeric stream id) -/
  stream : Nat
  /-- `finfo.time_stamp` (a `double` in the source; modelled exactly) -/
  time_stamp : Int
  /-- `finfo.ctype` -/
  ctype : CompressionType
  /-- decoded pixel payload (`frame_sample::data`) -/
  data : List Nat
deriving DecidableEq

/-- Placeholder value used to model reads through a zero-initialised or
default-constructed descriptor slot. -/
def defaultSample : Sample :=
  { type := SampleType.st_debug_event, capture_time := 0, offset := 0,
    stream := 0, time_stamp := 0, ctype := CompressionType.comp_none, data := [] }

/-- `file_types::stream_info`, restricted to the fields the engine logic
reads (`nframes`; profile fields are only forwarded to the decoder scratch
sizing, which has no observable effect in this model). -/
structure StreamInfo where
  nframes : Nat
deriving DecidableEq

/-- `disk_read_base::active_stream_info`. -/
structure ActiveStreamInfo where
  /-- `m_prefetched_samples_count` -/
  prefetched_samples_count : Nat
  /-- `m_image_indices` (copy cached on enable) -/
  image_indices : List Nat
  /-- `m_stream_info` (copy cached on enable) -/
  stream_info : StreamInfo
deriving DecidableEq

/-- Association-list lookup, modelling `std::map::find`. -/
def alookup {α : Type} : List (Nat × α) → Nat → Option α
  | [], _ => none
  | (k, v) :: rest, key => if k = key then some v else alookup rest key

/-- Keys of an association list. -/
def akeys {α : Type} (m : List (Nat × α)) : List Nat := m.map Prod.fst

/-- `m[key] = value` on a `std::map`: replaces the mapped value if the key is
present, inserts it otherwise. -/
def astore {α : Type} : List (Nat × α) → Nat → α → List (Nat × α)
  | [], key, v => [(key, v)]
  | (k, w) :: rest, key, v =>
    if k = key then (k, v) :: rest else (k, w) :: astore rest key v

/-- `std::map::erase`. -/
def aerase {α : Type} : List (Nat × α) → Nat → List (Nat × α)
  | [], _ => []
  | (k, w) :: rest, key => if k = key then rest else (k, w) :: aerase rest key

/-- `m[key]` used as an rvalue on a `std::map`: default-constructs and inserts
the mapped value when the key is missing, then applies `f` to the entry.
Used to model `m_active_streams_info[stream].m_prefetched_samples_count--`
and friends. -/
def amodify {α : Type} (m : List (Nat × α)) (key : Nat) (dflt : α) (f : α → α) :
    List (Nat × α) :=
  match alookup m key with
  | some v => astore m key (f v)
  | none => m ++ [(key, f dflt)]

/-- The engine state: the data members of `disk_read_base` that the verified
operations read or write, plus a model wall clock (`now`) standing for
`std::chrono::high_resolution_clock::now()` and the not-yet-indexed tail of
the recording (`pending`), which feeds the spec-modelled indexer. -/
structure DiskRead where
  /-- `m_samples_desc`: descriptors discovered so far, in file order. -/
  samples_desc : List Sample
  /-- The sample records of the file that the indexer has not yet scanned
  (in file order).  `m_is_index_complete` is set once this is exhausted. -/
  pending : List Sample
  /-- `m_samples_desc_index` (the prefetch cursor). -/
  samples_desc_index : Nat
  /-- `m_prefetched_samples` (FIFO; head of the list = front of the queue). -/
  prefetched_samples : List Sample
  /-- `m_active_streams_info`. -/
  active_streams_info : List (Nat × ActiveStreamInfo)
  /-- `m_streams_infos` (streams declared in the file header). -/
  streams_infos : List (Nat × StreamInfo)
  /-- `m_image_indices`: per stream, descriptor positions of its images. -/
  image_indices : List (Nat × List Nat)
  /-- `m_is_index_complete` -/
  is_index_complete : Bool
  /-- `m_is_motion_tracking_enabled` -/
  is_motion_tracking_enabled : Bool
  /-- `m_realtime` -/
  realtime : Bool
  /-- `m_pause` -/
  m_pause : Bool
  /-- `m_base_ts` (uint64) -/
  base_ts : Nat
  /-- `m_base_sys_time`, as microseconds on the model wall clock. -/
  base_sys_time : Nat
  /-- model wall clock (microseconds); advanced by the pacing sleeps. -/
  now : Nat
  /-- number of live background reader threads (0 or 1): `m_thread` is
  joinable iff this is nonzero. -/
  running_threads : Nat
  /-- whether `m_eof_callback` is set (non-null). -/
  eof_callback_set : Bool
deriving DecidableEq

/-- Error conditions the engine raises (`throw std::runtime_error` in the
source), kept as distinct constructors per the §7 taxonomy. -/
inductive EngineError
  | resumeWhileStreaming
  | eofCallbackNull
  | unsupportedCompression
  | unsupportedStream
deriving DecidableEq

instance {ε α : Type} [DecidableEq ε] [DecidableEq α] :
    DecidableEq (Except ε α) := fun a b =>
  match a, b with
  | Except.error e, Except.error f =>
    if h : e = f then Decidable.isTrue (by rw [h])
    else Decidable.isFalse (by intro hc; cases hc; exact h rfl)
  | Except.error _, Except.ok _ => Decidable.isFalse (by intro hc; cases hc)
  | Except.ok _, Except.error _ => Decidable.isFalse (by intro hc; cases hc)
  | Except.ok x, Except.ok y =>
    if h : x = y then Decidable.isTrue (by rw [h])
    else Decidable.isFalse (by intro hc; cases hc; exact h rfl)

/-- Modelled from the spec: `NUMBER_OF_SAMPLES_TO_INDEX`, the indexing batch
size constant from `disk_read_base.h` (not among the provided sources).  Its
exact value is immaterial to every theorem below; any positive value yields
the same observable behaviour. -/
def NUMBER_OF_SAMPLES_TO_INDEX : Nat := 32

/-- Modelled from the spec: `NUMBER_OF_REQUIRED_PREFETCHED_SAMPLES`, the
"small constant threshold used to avoid unbounded motion-only buffering" from
`disk_read_base.h` (not among the provided sources). -/
def NUMBER_OF_REQUIRED_PREFETCHED_SAMPLES : Nat := 10

/-- Append `pos` to the image index of `stream` (`m_image_indices[stream]`,
default-constructing the vector when absent). -/
def appendImageIndex (m : List (Nat × List Nat)) (stream : Nat) (pos : Nat) :
    List (Nat × List Nat) :=
  amodify m stream [] (fun l => l ++ [pos])

/-- One step of the spec-modelled indexer: append a freshly parsed record to
the descriptor list and, for an Image sample, its position to the stream's
per-stream index. -/
def indexOneSample (s : DiskRead) (smp : Sample) : DiskRead :=
  let s' := { s with samples_desc := s.samples_desc ++ [smp] }
  if smp.type = SampleType.st_image then
    let ii := appendImageIndex s'.image_indices smp.stream
      (s'.samples_desc.length - 1)
    { s' with image_indices := ii }
  else s'

/-- Modelled from the spec: `index_next_samples(batch_size)` (implemented by
the format-specific derived classes, not among the provided sources).  Per
§4.1 it scans forward from the last scanned position, parses up to
`batch_size` new sample records, appends each to the descriptor list, appends
Image samples to their stream's per-stream index, sets the completion flag on
reaching end of file, and is a no-op after completion. -/
def index_next_samples (st : DiskRead) (batch : Nat) : DiskRead :=
  if st.is_index_complete then st
  else
    let taken := st.pending.take batch
    let rest := st.pending.drop batch
    let st' := taken.foldl indexOneSample st
    { st' with pending := rest, is_index_complete := rest.isEmpty }

/-- `disk_read_base::all_samples_bufferd` (sic). -/
def all_samples_bufferd (st : DiskRead) : Bool :=
  -- no more samples to prefetch - all available samples are buffered
  if st.is_index_complete ∧ st.samples_desc_index ≥ st.samples_desc.length ∧
      st.prefetched_samples.length > 0 then true
  else if st.active_streams_info.any
      (fun p => ¬ p.2.prefetched_samples_count > 0) then false
  else
    decide (st.prefetched_samples.length >
      (if st.is_motion_tracking_enabled then NUMBER_OF_REQUIRED_PREFETCHED_SAMPLES
       else 0))

/-- `disk_read_base::prefetch_sample`, parametric in the decode step
`read_img` (instantiated with `read_image_buffer` in the composed engine, and
universally quantified in the theorems that assert no decode happens). -/
def prefetch_sample (read_img : Sample → Except EngineError (Option Sample))
    (st : DiskRead) : Except EngineError DiskRead :=
  if st.samples_desc_index ≥ st.samples_desc.length ∨ all_samples_bufferd st then
    Except.ok st
  else
    let sample := st.samples_desc.getD st.samples_desc_index defaultSample
    let st := { st with samples_desc_index := st.samples_desc_index + 1 }
    match sample.type with
    | SampleType.st_image =>
      -- don't prefatch frame if stream is disabled.
      if (alookup st.active_streams_info sample.stream).isNone then Except.ok st
      else
        match read_img sample with
        | Except.error e => Except.error e
        | Except.ok none => Except.ok st
        | Except.ok (some curr) =>
          let act := amodify st.active_streams_info sample.stream
            { prefetched_samples_count := 0, image_indices := [],
              stream_info := { nframes := 0 } }
            (fun a => { a with
              prefetched_samples_count := a.prefetched_samples_count + 1 })
          Except.ok { st with
            active_streams_info := act,
            prefetched_samples := st.prefetched_samples ++ [curr] }
    | SampleType.st_motion =>
      Except.ok (if st.is_motion_tracking_enabled then
        { st with prefetched_samples := st.prefetched_samples ++ [sample] } else st)
    | SampleType.st_time =>
      Except.ok (if st.is_motion_tracking_enabled then
        { st with prefetched_samples := st.prefetched_samples ++ [sample] } else st)
    | SampleType.st_debug_event => Except.ok st

/-- `2^32` -/
def U32 : Nat := 4294967296
/-- `2^64` -/
def U64 : Nat := 18446744073709551616

/-- Unsigned 64-bit subtraction (`uint64_t` operands wrap modulo `2^64`). -/
def u64sub (a b : Nat) : Nat := (a % U64 + U64 - b % U64) % U64

/-- `static_cast<int>` of an unsigned 64-bit value: keep the low 32 bits and
reinterpret them as a signed two's-complement value. -/
def toInt32 (d : Nat) : Int :=
  if d % U32 < 2147483648 then ((d % U32 : Nat) : Int)
  else ((d % U32 : Nat) : Int) - (U32 : Int)

/-- `disk_read_base::query_run_time` (microseconds since `m_base_sys_time`). -/
def query_run_time (st : DiskRead) : Nat := st.now - st.base_sys_time

/-- `disk_read_base::calc_sleep_time` on the three time inputs:
`sample->info.capture_time`, `m_base_ts` and `query_run_time()`.  The source
computes `time_stamp - m_base_ts - time_span` in `uint64_t` arithmetic and
then truncates through `static_cast<int>` before widening back to
`int64_t`. -/
def calc_sleep_time (capture_time base_ts time_span : Nat) : Int :=
  toInt32 (u64sub (u64sub capture_time base_ts) time_span)

/-- Popping the front sample inside `notify_available_samples`: for an Image
sample the stream's ready counter is decremented first
(`m_active_streams_info[stream]` default-inserts a fresh entry for a stream
that has been disabled meanwhile), then the sample leaves the queue. -/
def notify_deliver (st : DiskRead) (front : Sample) (rest : List Sample) :
    DiskRead :=
  let st1 :=
    if front.type = SampleType.st_image then
      let act := amodify st.active_streams_info front.stream
        { prefetched_samples_count := 0, image_indices := [],
          stream_info := { nframes := 0 } }
        (fun a => { a with
          prefetched_samples_count := a.prefetched_samples_count - 1 })
      { st with active_streams_info := act }
    else st
  { st1 with prefetched_samples := rest }

/-- The delivery loop of `disk_read_base::notify_available_samples`, popping
one queue entry per iteration; the driver below supplies fuel equal to the
queue length, which the loop can never exceed. -/
def notifyAux : Nat → DiskRead → DiskRead × List Sample
  | 0, st => (st, [])
  | n + 1, st =>
    if st.m_pause then (st, [])
    else
      match st.prefetched_samples with
      | [] => (st, [])
      | front :: rest =>
        let t := calc_sleep_time front.capture_time st.base_ts (query_run_time st)
        if t > 0 ∧ st.realtime then (st, [])
        else
          -- handle next sample if its time has come
          let out := notifyAux n (notify_deliver st front rest)
          (out.1, front :: out.2)

/-- `disk_read_base::notify_available_samples`: deliver, in FIFO order, every
front-of-queue sample whose pacing delay has elapsed (or every sample when
realtime mode is off), decrementing the stream's ready counter for image
samples.  Returns the new state and the samples passed to
`m_sample_callback`, in delivery order. -/
def notify_available_samples (st : DiskRead) : DiskRead × List Sample :=
  notifyAux st.prefetched_samples.length st

/-- `disk_read_base::update_time_base`. -/
def update_time_base (st : DiskRead) : DiskRead :=
  let st := { st with base_sys_time := st.now }
  let bts :=
    if st.samples_desc_index > 0 then
      match st.prefetched_samples with
      | front :: _ => front.capture_time
      | [] =>
        if st.samples_desc_index < st.samples_desc.length then
          (st.samples_desc.getD st.samples_desc_index defaultSample).capture_time
        else 0
    else 0
  { st with base_ts := bts }

/-- `disk_read_base::resume`.  Clears `m_pause` and resets the time base
before the streaming check, exactly as the source does, so those effects
survive even on the error path; throws `resume while streaming is not
allowed` when a reader thread is already joinable, and otherwise starts the
single background read loop. -/
def resume (st : DiskRead) : Except EngineError Unit × DiskRead :=
  let st := { st with m_pause := false }
  -- reset time base on resume
  let st := update_time_base st
  -- resume while streaming is not allowed
  if st.running_threads ≠ 0 then (Except.error EngineError.resumeWhileStreaming, st)
  else (Except.ok (), { st with running_threads := st.running_threads + 1 })

/-- `disk_read_base::pause`: raise `m_pause` and join the reader thread. -/
def pauseOp (st : DiskRead) : DiskRead :=
  { st with m_pause := true, running_threads := 0 }

/-- `disk_read_base::enable_stream`. -/
def enable_stream (st : DiskRead) (stream : Nat) (state : Bool) :
    Except EngineError DiskRead :=
  if (alookup st.streams_infos stream).isNone then
    Except.error EngineError.unsupportedStream
  else if state then
    let asi : ActiveStreamInfo :=
      { prefetched_samples_count := 0,
        image_indices := (alookup st.image_indices stream).getD [],
        stream_info := (alookup st.streams_infos stream).getD { nframes := 0 } }
    Except.ok { st with active_streams_info := astore st.active_streams_info stream asi }
  else
    Except.ok { st with active_streams_info := aerase st.active_streams_info stream }

/-- `disk_read_base::enable_motions_callback`. -/
def enable_motions_callback (st : DiskRead) (state : Bool) : DiskRead :=
  { st with is_motion_tracking_enabled := state }

/-- `disk_read_base::set_realtime`. -/
def set_realtime (st : DiskRead) (rt : Bool) : DiskRead :=
  update_time_base { st with realtime := rt }

/-- `disk_read_base::reset`: pause, rewind, clear cursor and queue, rebuild
the cached per-stream state of every active stream from the engine-wide maps
(`m_image_indices` / `m_streams_infos`, whose `operator[]` default-inserts a
missing key), and drop the cached decoder. -/
def resetOp (st : DiskRead) : DiskRead :=
  let st := pauseOp st
  let st := { st with samples_desc_index := 0, prefetched_samples := [] }
  let rebuild := st.active_streams_info.map (fun p =>
    (p.1, { prefetched_samples_count := 0,
            image_indices := (alookup st.image_indices p.1).getD [],
            stream_info := (alookup st.streams_infos p.1).getD { nframes := 0 }
          : ActiveStreamInfo }))
  let ii := st.active_streams_info.foldl
    (fun m p => (amodify m p.1 ([] : List Nat) id)) st.image_indices
  let sinfos := st.active_streams_info.foldl
    (fun m p => (amodify m p.1 ({ nframes := 0 } : StreamInfo) id)) st.streams_infos
  { st with active_streams_info := rebuild, image_indices := ii, streams_infos := sinfos }

/-- Iterate `index_next_samples` at most `n` times while the guard holds;
used to model the unconditional `while (!m_is_index_complete)` loops, which
terminate because each batch consumes at least one pending record. -/
def indexUntilComplete : Nat → DiskRead → Nat → DiskRead
  | 0, st, _ => st
  | n + 1, st, batch =>
    if st.is_index_complete then st
    else indexUntilComplete n (index_next_samples st batch) batch

/-- `disk_read_base::query_number_of_frames`.  `m_streams_infos[stream_type]`
default-inserts an empty `stream_info` when the stream is unknown; when the
declared count is zero the whole file is indexed
(`index_next_samples(uint32 max)` until complete) and the size of the
stream's image index is returned. -/
def query_number_of_frames (st : DiskRead) (stream_type : Nat) : Nat × DiskRead :=
  let si := (alookup st.streams_infos stream_type).getD { nframes := 0 }
  let sinfos := amodify st.streams_infos stream_type { nframes := 0 } id
  let st := { st with streams_infos := sinfos }
  if si.nframes > 0 then (si.nframes, st)
  else
    -- If not able to get from the header, let's count
    let st := indexUntilComplete (st.pending.length + 1) st 4294967295
    (((alookup st.image_indices stream_type).getD []).length, st)

/-- Fuel that provably dominates every loop that interleaves descriptor
stepping with `index_next_samples` calls: each indexing call consumes pending
records (or raises the completion flag), and each examining step advances the
position, which never exceeds the total record count. -/
def scanFuel (st : DiskRead) (index : Nat) : Nat :=
  2 * st.pending.length + (if st.is_index_complete then 0 else 1) +
    (st.samples_desc.length + st.pending.length + 1 - index) + 1

/-- The anchor-search loop of `disk_read_base::set_frame_by_time_stamp`
(the `do { ... } while(++index)` over descriptors): at position `index`,
index further batches when the descriptor list is exhausted (giving up once
indexing is complete), skip non-Image samples, and stop at the first Image
sample whose `finfo.time_stamp` is `≥ ts`, yielding its position and stream.
`none` from the outer `Option` means the fuel ran out (never happens for the
fuel supplied by the wrapper below). -/
def scanByTimeStampAux (ts : Nat) :
    Nat → DiskRead → Nat → Option (Option (Nat × Nat) × DiskRead)
  | 0, _, _ => none
  | fuel + 1, st, index =>
    if index ≥ st.samples_desc.length then
      if st.is_index_complete then some (none, st)
      else scanByTimeStampAux ts fuel
        (index_next_samples st NUMBER_OF_SAMPLES_TO_INDEX) index
    else
      let smp := st.samples_desc.getD index defaultSample
      if smp.type = SampleType.st_image ∧ smp.time_stamp ≥ (ts : Int) then
        some (some (index, smp.stream), st)
      else scanByTimeStampAux ts fuel st (index + 1)

/-- The anchor search of `set_frame_by_time_stamp`, with its provably
sufficient fuel. -/
def scan_by_time_stamp (ts : Nat) (st : DiskRead) :
    Option (Nat × Nat) × DiskRead :=
  (scanByTimeStampAux ts (scanFuel st 0) st 0).getD (none, st)

/-- The backward scan of `disk_read_base::find_nearest_frames`: walk from the
anchor towards the start of the descriptor list, recording for each stream
the first (hence nearest preceding) Image position encountered, and stop once
as many distinct streams are recorded as there are active streams. -/
def prevScan (desc : List Sample) (nActive : Nat) :
    Nat → List (Nat × Nat) → List (Nat × Nat)
  | 0, acc => acc
  | i + 1, acc =>
    if nActive ≤ acc.length then acc
    else
      let smp := desc.getD i defaultSample
      if smp.type = SampleType.st_image ∧ (alookup acc smp.stream).isNone then
        prevScan desc nActive i ((smp.stream, i) :: acc)
      else prevScan desc nActive i acc

/-- The forward scan of `disk_read_base::find_nearest_frames`: walk from the
anchor towards the end of the file (indexing further batches while the index
is incomplete), recording for each stream the first (hence nearest following)
Image position, until as many distinct streams are recorded as there are
active streams or the end of the indexed file is reached. -/
def nextScanAux (nActive : Nat) :
    Nat → DiskRead → Nat → List (Nat × Nat) → Option (List (Nat × Nat) × DiskRead)
  | 0, _, _, _ => none
  | fuel + 1, st, index, acc =>
    if nActive ≤ acc.length then some (acc, st)
    else if index + 1 ≥ st.samples_desc.length then
      if st.is_index_complete then some (acc, st)
      else nextScanAux nActive fuel
        (index_next_samples st NUMBER_OF_SAMPLES_TO_INDEX) index acc
    else
      let smp := st.samples_desc.getD (index + 1) defaultSample
      if smp.type = SampleType.st_image ∧ (alookup acc smp.stream).isNone then
        nextScanAux nActive fuel st (index + 1) ((smp.stream, index + 1) :: acc)
      else nextScanAux nActive fuel st (index + 1) acc

/-- Forward scan with its provably sufficient fuel. -/
def nextScan (st : DiskRead) (nActive : Nat) (index : Nat) :
    List (Nat × Nat) × DiskRead :=
  (nextScanAux nActive (scanFuel st index) st index []).getD ([], st)

/-- The absolute distance between two unsigned capture times, computed with
the guarded subtraction the source uses (`a > b ? a - b : b - a`). -/
def nat_dist (a b : Nat) : Nat := if a > b then a - b else b - a

/-- The per-stream selection step of `find_nearest_frames` (lines 475-486 of
the source): the anchor stream takes the anchor sample itself; every other
stream takes whichever of its recorded preceding/following neighbors has the
smaller absolute capture-time distance to the anchor, the preceding one on a
tie (`prev > next ? next : prev`).  A stream missing from a scan result is
read through `std::map::operator[]`, which yields position `0`. -/
def nearest_sample_for (desc : List Sample) (prev_index next_index : List (Nat × Nat))
    (capture_time : Nat) (sample_index : Nat) (stream : Nat) (s : Nat) : Sample :=
  if s = stream then desc.getD sample_index defaultSample
  else
    let pi := (alookup prev_index s).getD 0
    let ni := (alookup next_index s).getD 0
    let pct := (desc.getD pi defaultSample).capture_time
    let nct := (desc.getD ni defaultSample).capture_time
    let prev := nat_dist capture_time pct
    let next := nat_dist capture_time nct
    if prev > next then desc.getD ni defaultSample
    else desc.getD pi defaultSample

/-- One read attempt of a chunk record inside `read_image_buffer`, as served
by the underlying `file` primitive (not among the provided sources): did
reading the 8-byte chunk header succeed, the header fields, and the payload
bytes the subsequent `read_bytes` call actually delivered (fewer than `size`
models a read fault — the source never checks that status).  The per-row
pitch table that `sample_data` payloads carry is already skipped, as the
source does via `set_position(size_of_pitches(), current)`. -/
structure ChunkEvent where
  header_ok : Bool
  id : Nat
  size : Nat
  payload : List Nat
deriving DecidableEq

/-- `file_types::chunk_id::chunk_image_metadata` (numeric value immaterial,
only distinctness from other ids is used). -/
def chunk_image_metadata : Nat := 1
/-- `file_types::chunk_id::chunk_sample_data`. -/
def chunk_sample_data : Nat := 2

/-- Modelled from the spec: the collaborators `read_image_buffer` consumes —
the byte-addressable `file` read primitive (`include/file.h`, not among the
provided sources: `set_position` may fail, returned as a status; reads yield
the chunk sequence at a byte offset) and the codec-specific
`compression::decoder::decode_frame` capability, which returns the decoded
pixel payload of the given frame descriptor or nothing for a corrupt
compressed payload. -/
structure FileModel where
  seek_ok : Nat → Bool
  chunks_at : Nat → List ChunkEvent
  decode_frame : Sample → List Nat → Option (List Nat)

/-- The chunk-scanning loop of `disk_read_base::read_image_buffer`.  A failed
header read leaves the zero-initialised chunk record, which falls into the
`default:` arm with `size = 0` and returns no sample; an exhausted chunk
sequence behaves the same way.  `chunk_image_metadata` is consumed by
`read_frame_metadata` (derived class, modelled from the spec as attaching the
metadata and continuing).  `chunk_sample_data` dispatches on the declared
compression type: `none` returns a fresh frame owning exactly the bytes the
payload read delivered (its status is not checked); `lz4`/`h264` hand the
bytes read to the decoder and return its result (null for a corrupt payload);
anything else throws `unsupported compression type`.  Unknown chunk ids are
skipped by their declared size, or end the scan when that size is zero. -/
def read_image_buffer_loop (fm : FileModel) (frame : Sample) :
    List ChunkEvent → Except EngineError (Option Sample)
  | [] => Except.ok none
  | c :: rest =>
    if ¬ c.header_ok then Except.ok none
    else if c.id = chunk_image_metadata then
      read_image_buffer_loop fm frame rest
    else if c.id = chunk_sample_data then
      match frame.ctype with
      | CompressionType.comp_none =>
        Except.ok (some { frame with data := c.payload })
      | CompressionType.lz4 =>
        match fm.decode_frame frame c.payload with
        | some d => Except.ok (some { frame with data := d })
        | none => Except.ok none
      | CompressionType.h264 =>
        match fm.decode_frame frame c.payload with
        | some d => Except.ok (some { frame with data := d })
        | none => Except.ok none
      | CompressionType.other _ =>
        Except.error EngineError.unsupportedCompression
    else if c.size = 0 then Except.ok none
    else read_image_buffer_loop fm frame rest

/-- `disk_read_base::read_image_buffer`: position the read handle at the
frame's byte offset (returning no sample when the seek fails), then scan
chunks.  (The lazy `init_decoder()` call only sizes the scratch buffer and
has no observable effect here.) -/
def read_image_buffer (fm : FileModel) (frame : Sample) :
    Except EngineError (Option Sample) :=
  if ¬ fm.seek_ok frame.offset then Except.ok none
  else read_image_buffer_loop fm frame (fm.chunks_at frame.offset)

/-- The end-to-end per-stream selection of `find_nearest_frames`: run the
backward scan over the already-indexed descriptors and the forward scan
(indexing further as needed), then pick stream `s`'s sample by the
`nearest_sample_for` rule.  Pure in the pre-scan state `st`. -/
def find_nearest_selection (st : DiskRead) (sample_index stream s : Nat) :
    Sample :=
  let prev_index := prevScan st.samples_desc st.active_streams_info.length
    sample_index []
  let scanned := nextScan st st.active_streams_info.length sample_index
  nearest_sample_for scanned.2.samples_desc prev_index scanned.1
    ((scanned.2.samples_desc.getD sample_index defaultSample).capture_time)
    sample_index stream s

/-- `disk_read_base::find_nearest_frames`: run the backward and forward
neighbor scans, select one sample per active stream
(`find_nearest_selection`), decode each selected Image sample into the
returned per-stream frame map (samples that fail to decode are simply
absent), then reset the cursor to the anchor, flush the prefetch queue and
prime a single prefetch. -/
def find_nearest_frames (fm : FileModel) (st : DiskRead) (sample_index : Nat)
    (stream : Nat) : Except EngineError (List (Nat × Sample) × DiskRead) :=
  let st0 := st
  let scanned := nextScan st st.active_streams_info.length sample_index
  let st := scanned.2
  let rv0 : Except EngineError (List (Nat × Sample)) :=
    st.active_streams_info.foldl (fun acc p =>
      match acc with
      | Except.error e => Except.error e
      | Except.ok rv =>
        let sample := find_nearest_selection st0 sample_index stream p.1
        if sample.type = SampleType.st_image then
          match read_image_buffer fm sample with
          | Except.error e => Except.error e
          | Except.ok (some curr) => Except.ok (astore rv curr.stream curr)
          | Except.ok none => Except.ok rv
        else Except.ok rv) (Except.ok [])
  match rv0 with
  | Except.error e => Except.error e
  | Except.ok rv =>
    let st := { st with samples_desc_index := sample_index, prefetched_samples := [] }
    match prefetch_sample (read_image_buffer fm) st with
    | Except.error e => Except.error e
    | Except.ok st => Except.ok (rv, st)

/-- `disk_read_base::set_frame_by_time_stamp`: remember whether playback was
running, pause, search for the anchor (the failed search returns the empty
map with the engine left paused, exactly as the source's early `return rv`
does), resolve nearest frames, and resume when playback had been active. -/
def set_frame_by_time_stamp (fm : FileModel) (st : DiskRead) (ts : Nat) :
    Except EngineError (List (Nat × Sample) × DiskRead) :=
  let previous_state := st.m_pause
  let st := pauseOp st
  match scan_by_time_stamp ts st with
  | (none, st) => Except.ok ([], st)
  | (some (index, stream), st) =>
    match find_nearest_frames fm st index stream with
    | Except.error e => Except.error e
    | Except.ok (rv, st) =>
      if ¬ previous_state then
        let r := resume st
        match r.1 with
        | Except.error e => Except.error e
        | Except.ok _ => Except.ok (rv, r.2)
      else Except.ok (rv, st)

/-- The `while(index >= m_image_indices[stream_type].size() &&
!m_is_index_complete) index_next_samples(...)` loop of
`set_frame_by_index`. -/
def indexWhileFrames : Nat → DiskRead → Nat → Nat → DiskRead
  | 0, st, _, _ => st
  | n + 1, st, idx, s =>
    if idx ≥ ((alookup st.image_indices s).getD []).length ∧
        ¬ st.is_index_complete then
      indexWhileFrames n (index_next_samples st NUMBER_OF_SAMPLES_TO_INDEX) idx s
    else st

/-- `disk_read_base::set_frame_by_index` (`m_image_indices[stream_type]`
default-inserts an empty index for an unknown stream). -/
def set_frame_by_index (fm : FileModel) (st : DiskRead) (index : Nat)
    (stream_type : Nat) : Except EngineError (List (Nat × Sample) × DiskRead) :=
  let previous_state := st.m_pause
  let st := pauseOp st
  let st := { st with image_indices := amodify st.image_indices stream_type [] id }
  let st := indexWhileFrames (st.pending.length + 1) st index stream_type
  if index ≥ ((alookup st.image_indices stream_type).getD []).length then
    Except.ok ([], st)
  else
    match find_nearest_frames fm st
      (((alookup st.image_indices stream_type).getD []).getD index 0) stream_type with
    | Except.error e => Except.error e
    | Except.ok (rv, st) =>
      if ¬ previous_state then
        let r := resume st
        match r.1 with
        | Except.error e => Except.error e
        | Except.ok _ => Except.ok (rv, r.2)
      else Except.ok (rv, st)

/-- The `while(m_samples_desc_index >= m_samples_desc.size() &&
!m_is_index_complete)` loop at the top of `read_next_sample`. -/
def ensure_indexed : Nat → DiskRead → DiskRead
  | 0, st => st
  | n + 1, st =>
    if st.samples_desc_index ≥ st.samples_desc.length ∧
        ¬ st.is_index_complete then
      ensure_indexed n (index_next_samples st NUMBER_OF_SAMPLES_TO_INDEX)
    else st

/-- The pacing loop of `read_next_sample`: while the front of the queue is
due in more than 1000 units, sleep for exactly that long (advancing the model
wall clock) when indexing is complete, and index another batch otherwise. -/
def pace_loop : Nat → DiskRead → DiskRead
  | 0, st => st
  | fuel + 1, st =>
    let front := st.prefetched_samples.headD defaultSample
    let t := calc_sleep_time front.capture_time st.base_ts (query_run_time st)
    if t > 1000 then
      if st.is_index_complete then pace_loop fuel { st with now := st.now + t.toNat }
      else pace_loop fuel (index_next_samples st NUMBER_OF_SAMPLES_TO_INDEX)
    else st

/-- `disk_read_base::read_next_sample`: deliver due samples, top up the
index, report end of data when both the descriptor list is consumed and the
queue is empty, otherwise prefetch one sample and, when fully buffered in
realtime mode, pace.  Returns (more-data flag, state, delivered samples). -/
def read_next_sample (fm : FileModel) (st : DiskRead) :
    Except EngineError (Bool × DiskRead × List Sample) :=
  let out := notify_available_samples st
  let st := ensure_indexed (out.1.pending.length + 1) out.1
  if st.samples_desc_index ≥ st.samples_desc.length ∧
      st.prefetched_samples.length = 0 then
    Except.ok (false, st, out.2)
  else
    match prefetch_sample (read_image_buffer fm) st with
    | Except.error e => Except.error e
    | Except.ok st =>
      let st := if all_samples_bufferd st ∧ st.realtime then
        pace_loop (st.pending.length + 2) st else st
      Except.ok (true, st, out.2)

/-- Observable events of one run of the background read loop: samples handed
to `m_sample_callback` and the `m_eof_callback` invocation. -/
inductive PlaybackEvent
  | sample (s : Sample)
  | eof
deriving DecidableEq

/-- The `while (!m_pause && !eof)` body of `disk_read_base::read_thread`,
fuel-bounded (the theorems below hold for every fuel, i.e. for every finite
prefix of the loop's execution).  On end of file: a null `m_eof_callback` is
a fatal error raised before anything else; otherwise the callback fires and
`m_pause` is raised, ending the loop. -/
def read_thread_loop (fm : FileModel) :
    Nat → DiskRead → Except EngineError (DiskRead × List PlaybackEvent)
  | 0, st => Except.ok (st, [])
  | fuel + 1, st =>
    if st.m_pause then Except.ok (st, [])
    else
      match read_next_sample fm st with
      | Except.error e => Except.error e
      | Except.ok (more, st, delivered) =>
        if more then
          match read_thread_loop fm fuel st with
          | Except.error e => Except.error e
          | Except.ok (st', evs) =>
            Except.ok (st', delivered.map PlaybackEvent.sample ++ evs)
        else
          -- notify that reached the end of file
          if ¬ st.eof_callback_set then Except.error EngineError.eofCallbackNull
          else Except.ok ({ st with m_pause := true },
            delivered.map PlaybackEvent.sample ++ [PlaybackEvent.eof])

/-- `disk_read_base::read_thread`: stamp `m_base_sys_time` and run the
loop. -/
def read_thread (fm : FileModel) (fuel : Nat) (st : DiskRead) :
    Except EngineError (DiskRead × List PlaybackEvent) :=
  read_thread_loop fm fuel { st with base_sys_time := st.now }

/-! ### Specification-side definitions

These definitions follow the words of the specification (not the code) and
are used to compare claims against the embedded implementation. -/

/-- Well-formedness tying the completion flag to the spec-modelled file tail:
once indexing is complete no unscanned records remain.  Established by
`init`/indexing and preserved by every operation. -/
def WFState (st : DiskRead) : Prop :=
  st.is_index_complete = true → st.pending = []

/-- The buffering predicate as claim C3 words it: every active stream has at
least one ready sample (with at least one active stream, as the second
disjunct makes plain), or no image streams are active and the queue depth
exceeds the small constant threshold. -/
def all_streams_buffered_spec (st : DiskRead) : Bool :=
  (¬ st.active_streams_info.isEmpty ∧
    st.active_streams_info.all (fun p => 0 < p.2.prefetched_samples_count)) ∨
  (st.active_streams_info.isEmpty ∧
    st.prefetched_samples.length > NUMBER_OF_REQUIRED_PREFETCHED_SAMPLES)

/-- Position `p` holds the closest Image sample of stream `s` preceding the
anchor position in the descriptor list `l`. -/
def isClosestPrevImage (l : List Sample) (s anchor p : Nat) : Prop :=
  p < anchor ∧ (l.getD p defaultSample).type = SampleType.st_image ∧
  (l.getD p defaultSample).stream = s ∧
  ∀ j < anchor, p < j →
    ¬ ((l.getD j defaultSample).type = SampleType.st_image ∧
       (l.getD j defaultSample).stream = s)

/-- Position `n` holds the closest Image sample of stream `s` following the
anchor position in the descriptor list `l`. -/
def isClosestNextImage (l : List Sample) (s anchor n : Nat) : Prop :=
  anchor < n ∧ n < l.length ∧
  (l.getD n defaultSample).type = SampleType.st_image ∧
  (l.getD n defaultSample).stream = s ∧
  ∀ j < n, anchor < j →
    ¬ ((l.getD j defaultSample).type = SampleType.st_image ∧
       (l.getD j defaultSample).stream = s)

/-- The forward anchor search as a pure scan over the file's full record
sequence, carrying the absolute position: the first Image record whose frame
timestamp reaches `ts`. -/
def anchorSpec (ts : Nat) : List Sample → Nat → Option (Nat × Nat)
  | [], _ => none
  | smp :: rest, pos =>
    if smp.type = SampleType.st_image ∧ smp.time_stamp ≥ (ts : Int) then
      some (pos, smp.stream)
    else anchorSpec ts rest (pos + 1)

/-- The §3 invariant for claim C9, strengthened (as the proof requires) with
the fact that every Image sample sitting in the prefetch queue belongs to a
stream declared in the header: `notify_available_samples` touches
`m_active_streams_info[frame->finfo.stream]` for queued frames, so the queue
must not smuggle undeclared streams into the active map. -/
def StreamsDeclared (st : DiskRead) : Prop :=
  (∀ p ∈ st.active_streams_info, p.1 ∈ akeys st.streams_infos) ∧
  (∀ smp ∈ st.prefetched_samples, smp.type = SampleType.st_image →
    smp.stream ∈ akeys st.streams_infos)

/-- The control operations and reader steps of the engine, for stating
state-machine invariants. -/
inductive EngineOp
  | enableStreamOp (s : Nat) (b : Bool)
  | enableMotionOp (b : Bool)
  | resetEngineOp
  | resumeEngineOp
  | pauseEngineOp
  | setRealtimeOp (b : Bool)
  | indexOp (batch : Nat)
  | prefetchOp
  | notifyOp
  | seekTimeOp (ts : Nat)
  | seekIndexOp (i : Nat) (s : Nat)
  | queryFramesOp (s : Nat)
  | readThreadOp (fuel : Nat)

/-- One engine step.  Operations whose C++ counterpart throws leave the
observable state as it was before the call: per §7 an escaping format/usage
fault is fatal to the engine instance (it is not used further), so the step
relation models the surviving states. -/
def engine_step (fm : FileModel) (st : DiskRead) : EngineOp → DiskRead
  | EngineOp.enableStreamOp s b =>
    match enable_stream st s b with
    | Except.ok st' => st'
    | Except.error _ => st
  | EngineOp.enableMotionOp b => enable_motions_callback st b
  | EngineOp.resetEngineOp => resetOp st
  | EngineOp.resumeEngineOp => (resume st).2
  | EngineOp.pauseEngineOp => pauseOp st
  | EngineOp.setRealtimeOp b => set_realtime st b
  | EngineOp.indexOp batch => index_next_samples st batch
  | EngineOp.prefetchOp =>
    match prefetch_sample (read_image_buffer fm) st with
    | Except.ok st' => st'
    | Except.error _ => st
  | EngineOp.notifyOp => (notify_available_samples st).1
  | EngineOp.seekTimeOp ts =>
    match set_frame_by_time_stamp fm st ts with
    | Except.ok r => r.2
    | Except.error _ => st
  | EngineOp.seekIndexOp i s =>
    match set_frame_by_index fm st i s with
    | Except.ok r => r.2
    | Except.error _ => st
  | EngineOp.queryFramesOp s => (query_number_of_frames st s).2
  | EngineOp.readThreadOp fuel =>
    match read_thread fm fuel st with
    | Except.ok r => r.1
    | Except.error _ => st

/-! ### Concrete instances used by witnesses and counterexamples -/

/-- An Image sample with the given stream, capture time and frame
timestamp. -/
def img (s : Nat) (ct : Nat) (ts : Int) : Sample :=
  { type := SampleType.st_image, capture_time := ct, offset := 0, stream := s,
    time_stamp := ts, ctype := CompressionType.comp_none, data := [] }

/-- A fresh `active_stream_info` (all counters zero). -/
def asi0 : ActiveStreamInfo :=
  { prefetched_samples_count := 0, image_indices := [],
    stream_info := { nframes := 0 } }

/-- A baseline engine state: empty file fully indexed, paused, realtime. -/
def st0 : DiskRead :=
  { samples_desc := [], pending := [], samples_desc_index := 0,
    prefetched_samples := [], active_streams_info := [], streams_infos := [],
    image_indices := [], is_index_complete := true,
    is_motion_tracking_enabled := false, realtime := true, m_pause := true,
    base_ts := 0, base_sys_time := 0, now := 0, running_threads := 0,
    eof_callback_set := true }

/-- A file model whose seeks succeed, whose chunk streams are empty and whose
decoder always fails; enough for the scenarios that never decode. -/
def fm0 : FileModel :=
  { seek_ok := fun _ => true, chunks_at := fun _ => [],
    decode_frame := fun _ _ => none }

/-- Counterexample state for C1: streams A=0 and B=1 are active, but images
of the inactive streams 2, 3 and 4 also occur.  Descriptors (position:
stream@capture): 0:4@5, 1:1@19, 2:2@7, 3:3@8, 4:0@20 (anchor), 5:1@31. -/
def stC1 : DiskRead := { st0 with
  samples_desc := [img 4 5 5, img 1 19 19, img 2 7 7, img 3 8 8,
                   img 0 20 20, img 1 31 31],
  active_streams_info := [(0, asi0), (1, asi0)],
  streams_infos := [(0, { nframes := 0 }), (1, { nframes := 0 })] }

/-- Witness state for C1 — the spec's own example scenario: image streams
A = 0 at capture times {0, 10, 20, 30} and B = 1 at {0, 11, 19, 31}, both
active; seeking to A's sample at t = 20 (position 4) must select B's sample
at t = 19 (position 5). -/
def stAB : DiskRead := { st0 with
  samples_desc := [img 0 0 0, img 1 0 0, img 0 10 10, img 1 11 11,
                   img 0 20 20, img 1 19 19, img 0 30 30, img 1 31 31],
  active_streams_info := [(0, asi0), (1, asi0)],
  streams_infos := [(0, { nframes := 0 }), (1, { nframes := 0 })] }

/-- Counterexample state for C2: a single Image sample whose capture time
(100) qualifies for the seek but whose frame timestamp (0) does not. -/
def stC2 : DiskRead := { st0 with
  samples_desc := [img 0 100 0],
  active_streams_info := [(0, asi0)],
  streams_infos := [(0, { nframes := 0 })] }

/-- Counterexample state for C3: indexing complete, cursor past the end of
the descriptor list, one sample buffered, and an active stream with zero
ready samples. -/
def stC3 : DiskRead := { st0 with
  prefetched_samples := [img 0 5 5],
  active_streams_info := [(0, asi0)],
  streams_infos := [(0, { nframes := 0 })] }

/-- Witness state for C4: stream 1 has an Image descriptor in the index but
is not active (`enable_stream(1, false)`); stream 0 is active. -/
def stC4 : DiskRead := { st0 with
  samples_desc := [img 1 7 7], is_index_complete := false,
  active_streams_info := [(0, asi0)],
  streams_infos := [(0, { nframes := 0 }), (1, { nframes := 0 })] }

/-- Witness state for C5/C6: not paused, non-realtime, one buffered
sample. -/
def stC5 : DiskRead := { st0 with
  realtime := false, m_pause := false,
  prefetched_samples := [img 0 5 5],
  active_streams_info := [(0, asi0)],
  streams_infos := [(0, { nframes := 0 })] }

/-- Witness state for C6: running (not paused), empty fully-indexed file, so
the read loop reaches end of file on its first iteration. -/
def stC6 : DiskRead := { st0 with m_pause := false }

/-- Counterexample file model for C8: seeking succeeds and the chunk stream
at every offset is a single `chunk_sample_data` header announcing 100
payload bytes of which the read delivers none (a read fault the source never
checks). -/
def fmC8 : FileModel :=
  { seek_ok := fun _ => true,
    chunks_at := fun _ => [{ header_ok := true, id := chunk_sample_data,
                             size := 100, payload := [] }],
    decode_frame := fun _ _ => none }

/-- The frame descriptor decoded in the C8 counterexample. -/
def frameC8 : Sample := img 0 42 42

/-- Witness state for C10: stream 0 declares 7 frames in its header info;
stream 1 declares none and has two images awaiting indexing. -/
def stC10 : DiskRead := { st0 with
  is_index_complete := false,
  pending := [img 1 1 1, img 0 2 2, img 1 3 3],
  streams_infos := [(0, { nframes := 7 }), (1, { nframes := 0 })] }

/-- The image-index updates performed while indexing a record batch,
accumulated from a starting descriptor position (proof-support view of the
fold inside `index_next_samples`). -/
def indexImages (m : List (Nat × List Nat)) (pos : Nat) :
    List Sample → List (Nat × List Nat)
  | [] => m
  | smp :: rest =>
    indexImages
      (if smp.type = SampleType.st_image then appendImageIndex m smp.stream pos
       else m) (pos + 1) rest

/-! ### Basic lemmas: association lists -/

@[simp] theorem akeys_nil {α : Type} : akeys ([] : List (Nat × α)) = [] := rfl

@[simp] theorem akeys_cons {α : Type} (p : Nat × α) (rest : List (Nat × α)) :
    akeys (p :: rest) = p.1 :: akeys rest := rfl

theorem alookup_eq_none_iff {α : Type} (m : List (Nat × α)) (k : Nat) :
    alookup m k = none ↔ k ∉ akeys m := by
  induction m with
  | nil => simp [alookup]
  | cons p rest ih =>
    obtain ⟨k', v⟩ := p
    by_cases h : k' = k
    · subst h; simp [alookup]
    · simp only [alookup, if_neg h, akeys_cons, List.mem_cons, ih]
      constructor
      · intro hk hmem
        rcases hmem with h1 | h2
        · exact h h1.symm
        · exact hk h2
      · intro hk h2
        exact hk (Or.inr h2)

theorem alookup_mem_keys {α : Type} {m : List (Nat × α)} {k : Nat} {v : α}
    (h : alookup m k = some v) : k ∈ akeys m := by
  by_contra hc
  rw [← alookup_eq_none_iff] at hc
  simp [h] at hc

theorem length_lt_of_nodup_subset_missing {l m : List Nat} (hn : l.Nodup)
    (hs : ∀ x ∈ l, x ∈ m) {a : Nat} (ha : a ∈ m) (hna : a ∉ l) :
    l.length < m.length := by
  have h1 : l.toFinset.card = l.length := List.toFinset_card_of_nodup hn
  have h2 : l.toFinset ⊂ m.toFinset := by
    constructor
    · intro x hx
      simp only [List.mem_toFinset] at hx ⊢
      exact hs x hx
    · intro hsub
      exact hna (by simpa using hsub (by simpa using ha))
  have h3 : m.toFinset.card ≤ m.length := m.toFinset_card_le
  have h4 := Finset.card_lt_card h2
  omega

theorem akeys_length {α : Type} (m : List (Nat × α)) :
    (akeys m).length = m.length := by
  simp [akeys]

/-! ### Basic lemmas: the spec-modelled indexer -/

theorem foldl_indexOneSample (taken : List Sample) : ∀ st : DiskRead,
    taken.foldl indexOneSample st =
      { st with samples_desc := st.samples_desc ++ taken,
                image_indices :=
                  indexImages st.image_indices st.samples_desc.length taken } := by
  induction taken with
  | nil => intro st; simp [indexImages]
  | cons smp rest ih =>
    intro st
    rw [List.foldl_cons, ih]
    by_cases h : smp.type = SampleType.st_image <;>
      simp [indexOneSample, indexImages, h]

theorem index_next_of_complete {st : DiskRead} (b : Nat)
    (h : st.is_index_complete = true) : index_next_samples st b = st := by
  simp [index_next_samples, h]

theorem index_next_eq_of_not_complete {st : DiskRead} (b : Nat)
    (h : st.is_index_complete = false) :
    index_next_samples st b =
      { st with
        samples_desc := st.samples_desc ++ st.pending.take b,
        image_indices :=
          indexImages st.image_indices st.samples_desc.length (st.pending.take b),
        pending := st.pending.drop b,
        is_index_complete := (st.pending.drop b).isEmpty } := by
  simp [index_next_samples, h, foldl_indexOneSample]

@[simp] theorem index_next_index (st : DiskRead) (b : Nat) :
    (index_next_samples st b).samples_desc_index = st.samples_desc_index := by
  by_cases h : st.is_index_complete
  · rw [index_next_of_complete b h]
  · rw [index_next_eq_of_not_complete b (by simpa using h)]

@[simp] theorem index_next_queue (st : DiskRead) (b : Nat) :
    (index_next_samples st b).prefetched_samples = st.prefetched_samples := by
  by_cases h : st.is_index_complete
  · rw [index_next_of_complete b h]
  · rw [index_next_eq_of_not_complete b (by simpa using h)]

@[simp] theorem index_next_active (st : DiskRead) (b : Nat) :
    (index_next_samples st b).active_streams_info = st.active_streams_info := by
  by_cases h : st.is_index_complete
  · rw [index_next_of_complete b h]
  · rw [index_next_eq_of_not_complete b (by simpa using h)]

@[simp] theorem index_next_sinfos (st : DiskRead) (b : Nat) :
    (index_next_samples st b).streams_infos = st.streams_infos := by
  by_cases h : st.is_index_complete
  · rw [index_next_of_complete b h]
  · rw [index_next_eq_of_not_complete b (by simpa using h)]

@[simp] theorem index_next_motion (st : DiskRead) (b : Nat) :
    (index_next_samples st b).is_motion_tracking_enabled =
      st.is_motion_tracking_enabled := by
  by_cases h : st.is_index_complete
  · rw [index_next_of_complete b h]
  · rw [index_next_eq_of_not_complete b (by simpa using h)]

@[simp] theorem index_next_realtime (st : DiskRead) (b : Nat) :
    (index_next_samples st b).realtime = st.realtime := by
  by_cases h : st.is_index_complete
  · rw [index_next_of_complete b h]
  · rw [index_next_eq_of_not_complete b (by simpa using h)]

@[simp] theorem index_next_m_pause (st : DiskRead) (b : Nat) :
    (index_next_samples st b).m_pause = st.m_pause := by
  by_cases h : st.is_index_complete
  · rw [index_next_of_complete b h]
  · rw [index_next_eq_of_not_complete b (by simpa using h)]

@[simp] theorem index_next_base_ts (st : DiskRead) (b : Nat) :
    (index_next_samples st b).base_ts = st.base_ts := by
  by_cases h : st.is_index_complete
  · rw [index_next_of_complete b h]
  · rw [index_next_eq_of_not_complete b (by simpa using h)]

@[simp] theorem index_next_base_sys (st : DiskRead) (b : Nat) :
    (index_next_samples st b).base_sys_time = st.base_sys_time := by
  by_cases h : st.is_index_complete
  · rw [index_next_of_complete b h]
  · rw [index_next_eq_of_not_complete b (by simpa using h)]

@[simp] theorem index_next_now (st : DiskRead) (b : Nat) :
    (index_next_samples st b).now = st.now := by
  by_cases h : st.is_index_complete
  · rw [index_next_of_complete b h]
  · rw [index_next_eq_of_not_complete b (by simpa using h)]

@[simp] theorem index_next_threads (st : DiskRead) (b : Nat) :
    (index_next_samples st b).running_threads = st.running_threads := by
  by_cases h : st.is_index_complete
  · rw [index_next_of_complete b h]
  · rw [index_next_eq_of_not_complete b (by simpa using h)]

@[simp] theorem index_next_eof_set (st : DiskRead) (b : Nat) :
    (index_next_samples st b).eof_callback_set = st.eof_callback_set := by
  by_cases h : st.is_index_complete
  · rw [index_next_of_complete b h]
  · rw [index_next_eq_of_not_complete b (by simpa using h)]

@[simp] theorem index_next_full (st : DiskRead) (b : Nat) :
    (index_next_samples st b).samples_desc ++ (index_next_samples st b).pending =
      st.samples_desc ++ st.pending := by
  by_cases h : st.is_index_complete
  · rw [index_next_of_complete b h]
  · rw [index_next_eq_of_not_complete b (by simpa using h)]
    simp [List.take_append_drop]

theorem index_next_desc_prefix (st : DiskRead) (b : Nat) :
    st.samples_desc <+: (index_next_samples st b).samples_desc := by
  by_cases h : st.is_index_complete
  · rw [index_next_of_complete b h]
  · rw [index_next_eq_of_not_complete b (by simpa using h)]
    exact ⟨st.pending.take b, rfl⟩

theorem index_next_wf {st : DiskRead} (b : Nat) (hwf : WFState st) :
    WFState (index_next_samples st b) := by
  by_cases h : st.is_index_complete
  · rw [index_next_of_complete b h]; exact hwf
  · rw [index_next_eq_of_not_complete b (by simpa using h)]
    intro hc
    simpa [List.isEmpty_iff] using hc

theorem scanFuel_index_next_lt {st : DiskRead} (b index : Nat)
    (h : st.is_index_complete = false) (hb : 1 ≤ b) :
    scanFuel (index_next_samples st b) index < scanFuel st index := by
  rw [index_next_eq_of_not_complete b h]
  simp only [scanFuel, h, List.length_append, List.length_take, List.length_drop]
  by_cases hp : (st.pending.drop b).isEmpty
  · rw [if_pos hp, if_neg (by simp)]
    have h0 : st.pending.length - b = 0 := by
      have h1 := List.isEmpty_iff.mp hp
      simpa using congrArg List.length h1
    omega
  · rw [if_neg hp, if_neg (by simp)]
    have h1 : st.pending.length - b ≠ 0 := by
      intro h0
      apply hp
      rw [List.isEmpty_iff, List.drop_eq_nil_iff]
      omega
    omega

theorem scanFuel_succ_lt {st : DiskRead} {index : Nat}
    (h : index < st.samples_desc.length) :
    scanFuel st (index + 1) < scanFuel st index := by
  simp only [scanFuel]
  omega

/-! ### The by-timestamp anchor scan -/

theorem scanAux_eof_complete {ts fuel : Nat} {st : DiskRead} {index : Nat}
    (h1 : index ≥ st.samples_desc.length) (h2 : st.is_index_complete = true) :
    scanByTimeStampAux ts (fuel + 1) st index = some (none, st) := by
  simp only [scanByTimeStampAux]
  rw [if_pos h1, if_pos h2]

theorem scanAux_eof_incomplete {ts fuel : Nat} {st : DiskRead} {index : Nat}
    (h1 : index ≥ st.samples_desc.length) (h2 : ¬ st.is_index_complete = true) :
    scanByTimeStampAux ts (fuel + 1) st index =
      scanByTimeStampAux ts fuel
        (index_next_samples st NUMBER_OF_SAMPLES_TO_INDEX) index := by
  simp only [scanByTimeStampAux]
  rw [if_pos h1, if_neg h2]

theorem scanAux_hit {ts fuel : Nat} {st : DiskRead} {index : Nat}
    (h1 : ¬ index ≥ st.samples_desc.length)
    (h3 : (st.samples_desc.getD index defaultSample).type = SampleType.st_image ∧
      (st.samples_desc.getD index defaultSample).time_stamp ≥ (ts : Int)) :
    scanByTimeStampAux ts (fuel + 1) st index =
      some (some (index, (st.samples_desc.getD index defaultSample).stream), st) := by
  simp only [scanByTimeStampAux]
  rw [if_neg h1, if_pos h3]

theorem scanAux_miss {ts fuel : Nat} {st : DiskRead} {index : Nat}
    (h1 : ¬ index ≥ st.samples_desc.length)
    (h3 : ¬ ((st.samples_desc.getD index defaultSample).type = SampleType.st_image ∧
      (st.samples_desc.getD index defaultSample).time_stamp ≥ (ts : Int))) :
    scanByTimeStampAux ts (fuel + 1) st index =
      scanByTimeStampAux ts fuel st (index + 1) := by
  simp only [scanByTimeStampAux]
  rw [if_neg h1, if_neg h3]

theorem scanAux_isSome (ts : Nat) : ∀ (fuel : Nat) (st : DiskRead) (index : Nat),
    scanFuel st index ≤ fuel → (scanByTimeStampAux ts fuel st index).isSome := by
  intro fuel
  induction fuel using Nat.strong_induction_on with
  | _ fuel ih =>
    intro st index hle
    obtain _ | fuel := fuel
    · exfalso; simp [scanFuel] at hle
    · by_cases h1 : index ≥ st.samples_desc.length
      · by_cases h2 : st.is_index_complete = true
        · rw [scanAux_eof_complete h1 h2]; rfl
        · have hlt := @scanFuel_index_next_lt st NUMBER_OF_SAMPLES_TO_INDEX
            index (by simpa using h2) (by norm_num [NUMBER_OF_SAMPLES_TO_INDEX])
          rw [scanAux_eof_incomplete h1 h2]
          exact ih fuel (Nat.lt_succ_self fuel) _ _ (by omega)
      · by_cases h3 : (st.samples_desc.getD index defaultSample).type =
            SampleType.st_image ∧
            (st.samples_desc.getD index defaultSample).time_stamp ≥ (ts : Int)
        · rw [scanAux_hit h1 h3]; rfl
        · have hlt := @scanFuel_succ_lt st index (by omega)
          rw [scanAux_miss h1 h3]
          exact ih fuel (Nat.lt_succ_self fuel) _ _ (by omega)

theorem scanAux_spec (ts : Nat) : ∀ (fuel : Nat) (st : DiskRead) (index : Nat)
    (r : Option (Nat × Nat) × DiskRead), WFState st →
    scanByTimeStampAux ts fuel st index = some r →
    r.1 = anchorSpec ts ((st.samples_desc ++ st.pending).drop index) index ∧
    r.2.samples_desc ++ r.2.pending = st.samples_desc ++ st.pending := by
  intro fuel
  induction fuel with
  | zero => intro st index r _ h; simp [scanByTimeStampAux] at h
  | succ fuel ih =>
    intro st index r hwf h
    by_cases h1 : index ≥ st.samples_desc.length
    · by_cases h2 : st.is_index_complete = true
      · have hpend : st.pending = [] := hwf h2
        rw [scanAux_eof_complete h1 h2] at h
        cases h
        constructor
        · rw [hpend, List.append_nil, List.drop_eq_nil_of_le (by omega)]
          rfl
        · rfl
      · rw [scanAux_eof_incomplete h1 h2] at h
        have hres := ih _ index r (index_next_wf _ hwf) h
        rwa [index_next_full] at hres
    · have h1' : index < st.samples_desc.length := by omega
      have hfull : index < (st.samples_desc ++ st.pending).length := by
        rw [List.length_append]; omega
      have hdrop := List.drop_eq_getElem_cons hfull
      have hgetd : (st.samples_desc ++ st.pending)[index] =
          st.samples_desc.getD index defaultSample := by
        rw [← List.getD_append _ _ defaultSample _ h1',
          List.getD_eq_getElem _ _ hfull]
      by_cases h3 : (st.samples_desc.getD index defaultSample).type =
          SampleType.st_image ∧
          (st.samples_desc.getD index defaultSample).time_stamp ≥ (ts : Int)
      · rw [scanAux_hit h1 h3] at h
        cases h
        constructor
        · rw [hdrop]
          simp only [anchorSpec, hgetd, if_pos h3]
        · rfl
      · rw [scanAux_miss h1 h3] at h
        have hres := ih st (index + 1) r hwf h
        obtain ⟨hres1, hres2⟩ := hres
        refine ⟨?_, hres2⟩
        rw [hdrop]
        simp only [anchorSpec, hgetd, if_neg h3]
        exact hres1

theorem anchorSpec_some (ts : Nat) : ∀ (l : List Sample) (pos i s : Nat),
    anchorSpec ts l pos = some (i, s) →
    ∃ k, i = pos + k ∧ k < l.length ∧
      (l.getD k defaultSample).type = SampleType.st_image ∧
      (l.getD k defaultSample).time_stamp ≥ (ts : Int) ∧
      s = (l.getD k defaultSample).stream ∧
      ∀ j < k, ¬ ((l.getD j defaultSample).type = SampleType.st_image ∧
                  (l.getD j defaultSample).time_stamp ≥ (ts : Int)) := by
  intro l
  induction l with
  | nil => intro pos i s h; simp [anchorSpec] at h
  | cons smp rest ih =>
    intro pos i s h
    by_cases hc : smp.type = SampleType.st_image ∧ smp.time_stamp ≥ (ts : Int)
    · simp only [anchorSpec, if_pos hc] at h
      cases h
      exact ⟨0, by omega, by simp, by simpa using hc.1, by simpa using hc.2,
        by simp, by omega⟩
    · simp only [anchorSpec, if_neg hc] at h
      obtain ⟨k, hk1, hk2, hk3, hk4, hk5, hk6⟩ := ih (pos + 1) i s h
      refine ⟨k + 1, by omega, by simp; omega, by simpa using hk3,
        by simpa using hk4, by simpa using hk5, ?_⟩
      intro j hj
      match j with
      | 0 => simpa using hc
      | j + 1 => simpa using hk6 j (by omega)

theorem anchorSpec_none (ts : Nat) : ∀ (l : List Sample) (pos : Nat),
    anchorSpec ts l pos = none →
    ∀ k < l.length, ¬ ((l.getD k defaultSample).type = SampleType.st_image ∧
        (l.getD k defaultSample).time_stamp ≥ (ts : Int)) := by
  intro l
  induction l with
  | nil => intro pos _ k hk; simp at hk
  | cons smp rest ih =>
    intro pos h k hk
    by_cases hc : smp.type = SampleType.st_image ∧ smp.time_stamp ≥ (ts : Int)
    · simp [anchorSpec, hc] at h
    · simp only [anchorSpec, if_neg hc] at h
      match k with
      | 0 => simpa using hc
      | k + 1 => simpa using ih (pos + 1) h k (by simpa using hk)

theorem scan_by_time_stamp_spec (ts : Nat) (st : DiskRead) (hwf : WFState st) :
    (scan_by_time_stamp ts st).1 =
      anchorSpec ts (st.samples_desc ++ st.pending) 0 ∧
    (scan_by_time_stamp ts st).2.samples_desc ++
      (scan_by_time_stamp ts st).2.pending =
      st.samples_desc ++ st.pending := by
  have hs := scanAux_isSome ts (scanFuel st 0) st 0 (le_refl _)
  obtain ⟨r, hr⟩ := Option.isSome_iff_exists.mp hs
  have hspec := scanAux_spec ts (scanFuel st 0) st 0 r hwf hr
  have hwrap : scan_by_time_stamp ts st = r := by
    simp [scan_by_time_stamp, hr]
  rw [hwrap]
  simpa using hspec

/-! ### Claim C2 -/

/-- C2 (amended): for every requested timestamp `ts`,
`set_frame_by_time_stamp(ts)` scans the descriptor list forward (indexing
further as needed) and anchors on the first Image sample whose frame
timestamp (`finfo.time_stamp` — not the capture timestamp, which the
original claim named) is `≥ ts`; if the end of file is reached before such a
sample is found, the operation fails and returns an empty per-stream frame
map. -/
theorem C2_anchor_on_frame_time_stamp (fm : FileModel) (st : DiskRead)
    (ts : Nat) (hwf : WFState st) :
    (∀ i s, (scan_by_time_stamp ts (pauseOp st)).1 = some (i, s) →
      i < (st.samples_desc ++ st.pending).length ∧
      ((st.samples_desc ++ st.pending).getD i defaultSample).type =
        SampleType.st_image ∧
      ((st.samples_desc ++ st.pending).getD i defaultSample).time_stamp ≥
        (ts : Int) ∧
      s = ((st.samples_desc ++ st.pending).getD i defaultSample).stream ∧
      (∀ j < i, ((st.samples_desc ++ st.pending).getD j defaultSample).type =
          SampleType.st_image →
        ((st.samples_desc ++ st.pending).getD j defaultSample).time_stamp <
          (ts : Int))) ∧
    ((scan_by_time_stamp ts (pauseOp st)).1 = none →
      (∀ k < (st.samples_desc ++ st.pending).length,
        ((st.samples_desc ++ st.pending).getD k defaultSample).type =
          SampleType.st_image →
        ((st.samples_desc ++ st.pending).getD k defaultSample).time_stamp <
          (ts : Int)) ∧
      set_frame_by_time_stamp fm st ts =
        Except.ok ([], (scan_by_time_stamp ts (pauseOp st)).2)) := by
  have hw : WFState (pauseOp st) := hwf
  have hspec := scan_by_time_stamp_spec ts (pauseOp st) hw
  have hfulleq : (pauseOp st).samples_desc ++ (pauseOp st).pending =
      st.samples_desc ++ st.pending := rfl
  constructor
  · intro i s hi
    rw [hspec.1, hfulleq] at hi
    obtain ⟨k, hk1, hk2, hk3, hk4, hk5, hk6⟩ :=
      anchorSpec_some ts (st.samples_desc ++ st.pending) 0 i s hi
    have hik : i = k := by omega
    subst hik
    refine ⟨hk2, hk3, hk4, hk5, ?_⟩
    intro j hj himg
    have := hk6 j hj
    by_contra hts
    push_neg at hts
    exact this ⟨himg, hts⟩
  · intro hnone
    constructor
    · rw [hspec.1, hfulleq] at hnone
      intro k hk himg
      have := anchorSpec_none ts (st.samples_desc ++ st.pending) 0 hnone k hk
      by_contra hts
      push_neg at hts
      exact this ⟨himg, hts⟩
    · simp only [set_frame_by_time_stamp]
      rcases hsc : scan_by_time_stamp ts (pauseOp st) with ⟨o, s2⟩
      rw [hsc] at hnone
      have ho : o = none := hnone
      subst ho
      rfl

/-- C2 (counterexample to the claim as stated): in `stC2` the very first
descriptor is an Image sample whose capture timestamp (100) qualifies for
`ts = 50`, yet the seek finds no anchor and returns the empty map, because
the code compares the frame timestamp (`finfo.time_stamp = 0`), not the
capture timestamp. -/
theorem C2_capture_time_counterexample :
    (stC2.samples_desc.getD 0 defaultSample).type = SampleType.st_image ∧
    (stC2.samples_desc.getD 0 defaultSample).capture_time ≥ 50 ∧
    (scan_by_time_stamp 50 (pauseOp stC2)).1 = none ∧
    set_frame_by_time_stamp fm0 stC2 50 =
      Except.ok ([], (scan_by_time_stamp 50 (pauseOp stC2)).2) := by
  refine ⟨by decide, by decide, by decide, ?_⟩
  simp only [set_frame_by_time_stamp]
  rcases hsc : scan_by_time_stamp 50 (pauseOp stC2) with ⟨o, s2⟩
  have : o = none := by
    have h := congrArg Prod.fst hsc
    simpa using h.symm.trans (by decide : (scan_by_time_stamp 50 (pauseOp stC2)).1 = none)
  subst this
  rfl

/-! ### Claim C3 -/

/-- C3 (amended): `all_samples_bufferd` returns true iff either indexing is
complete with the cursor past the end of the descriptor list and a nonempty
queue (the "nothing left to prefetch" early exit the original claim omits),
or every active stream has at least one ready sample and the queue is deeper
than the motion threshold (when motion tracking is enabled) resp. nonempty
(when it is disabled). -/
theorem C3_all_samples_bufferd_iff (st : DiskRead) :
    all_samples_bufferd st = true ↔
      (st.is_index_complete = true ∧
        st.samples_desc.length ≤ st.samples_desc_index ∧
        st.prefetched_samples ≠ []) ∨
      ((∀ p ∈ st.active_streams_info, 0 < p.2.prefetched_samples_count) ∧
        st.prefetched_samples.length >
          (if st.is_motion_tracking_enabled then
            NUMBER_OF_REQUIRED_PREFETCHED_SAMPLES else 0)) := by
  unfold all_samples_bufferd
  by_cases hA : st.is_index_complete = true ∧
      st.samples_desc_index ≥ st.samples_desc.length ∧
      st.prefetched_samples.length > 0
  · rw [if_pos hA]
    simp only [true_iff]
    exact Or.inl ⟨hA.1, hA.2.1, List.ne_nil_of_length_pos hA.2.2⟩
  · rw [if_neg hA]
    by_cases hAny : st.active_streams_info.any
        (fun p => ¬ p.2.prefetched_samples_count > 0)
    · rw [if_pos hAny]
      simp only [Bool.false_eq_true, false_iff]
      intro hcon
      rcases hcon with ⟨h1, h2, h3⟩ | ⟨h1, h2⟩
      · exact hA ⟨h1, h2, List.length_pos.mpr h3⟩
      · rw [List.any_eq_true] at hAny
        obtain ⟨p, hp, hnp⟩ := hAny
        simp only [decide_eq_true_eq] at hnp
        exact hnp (h1 p hp)
    · rw [if_neg hAny]
      rw [Bool.not_eq_true, List.any_eq_false] at hAny
      constructor
      · intro hq
        refine Or.inr ⟨?_, by simpa using hq⟩
        intro p hp
        have := hAny p hp
        simp only [decide_eq_true_eq] at this
        omega
      · intro hcon
        rcases hcon with ⟨h1, h2, h3⟩ | ⟨h1, h2⟩
        · exact absurd ⟨h1, h2, List.length_pos.mpr h3⟩ hA
        · simpa using h2

/-- C3 (counterexample to the claim as stated): in `stC3` indexing is
complete, the cursor is past the end of the descriptor list and the queue
holds one sample, so the code reports everything buffered — yet the active
stream 0 has zero ready samples and image streams are active, so both
disjuncts of the claimed characterization are false. -/
theorem C3_counterexample :
    all_samples_bufferd stC3 = true ∧ all_streams_buffered_spec stC3 = false := by
  decide

/-! ### Claim C4 -/

/-- C4 (confirmed): an Image descriptor whose stream is not active is
consumed by `prefetch_sample` — the cursor advances — but nothing is decoded
(the result holds for every decode function, which is never invoked), the
queue is untouched and every stream's ready counter is unchanged. -/
theorem C4_inactive_stream_dropped_without_decode
    (read_img : Sample → Except EngineError (Option Sample)) (st : DiskRead)
    (hidx : st.samples_desc_index < st.samples_desc.length)
    (hbuf : all_samples_bufferd st = false)
    (htype : (st.samples_desc.getD st.samples_desc_index defaultSample).type =
      SampleType.st_image)
    (hinactive : alookup st.active_streams_info
      (st.samples_desc.getD st.samples_desc_index defaultSample).stream = none) :
    prefetch_sample read_img st =
      Except.ok { st with samples_desc_index := st.samples_desc_index + 1 } ∧
    (∀ st', prefetch_sample read_img st = Except.ok st' →
      st'.active_streams_info = st.active_streams_info ∧
      st'.prefetched_samples = st.prefetched_samples) := by
  have hmain : prefetch_sample read_img st =
      Except.ok { st with samples_desc_index := st.samples_desc_index + 1 } := by
    unfold prefetch_sample
    rw [if_neg (by simp [hbuf]; omega)]
    simp only [htype, hinactive]
    rfl
  refine ⟨hmain, ?_⟩
  intro st' hst'
  rw [hmain] at hst'
  cases hst'
  exact ⟨rfl, rfl⟩

/-- C4 (witness): in `stC4` the next descriptor is a stream-1 image while
only stream 0 is active (`enable_stream(1, false)` state); the prefetch
consumes it and stream 1's ready counter remains absent/zero. -/
theorem C4_witness :
    prefetch_sample (fun _ => Except.ok none) stC4 =
      Except.ok { stC4 with samples_desc_index := 1 } ∧
    (alookup stC4.active_streams_info 1).isNone = true := by
  refine ⟨?_, by decide⟩
  exact (C4_inactive_stream_dropped_without_decode (fun _ => Except.ok none)
    stC4 (by decide) (by decide) (by decide) (by decide)).1

/-! ### Claim C7 -/

/-- C7 (confirmed): `resume` resets the pacing time base (and clears the
pause flag) unconditionally; when a reader thread is already live it fails
with the distinct usage error `resumeWhileStreaming` without starting a
second loop, and otherwise it starts exactly one background read loop. -/
theorem C7_resume_spec (st : DiskRead) :
    ((resume st).2.base_sys_time = st.now ∧ (resume st).2.m_pause = false) ∧
    (st.running_threads = 0 → (resume st).1 = Except.ok () ∧
      (resume st).2.running_threads = 1) ∧
    (st.running_threads ≠ 0 →
      (resume st).1 = Except.error EngineError.resumeWhileStreaming ∧
      (resume st).2.running_threads = st.running_threads) ∧
    (EngineError.resumeWhileStreaming ≠ EngineError.eofCallbackNull ∧
      EngineError.resumeWhileStreaming ≠ EngineError.unsupportedCompression ∧
      EngineError.resumeWhileStreaming ≠ EngineError.unsupportedStream) := by
  by_cases h : st.running_threads = 0 <;>
    simp [resume, update_time_base, h]

/-- C7 (witness): resuming the paused baseline engine `st0` succeeds with one
running thread; its fields discharge the theorem's hypotheses concretely. -/
theorem C7_witness :
    (resume st0).1 = Except.ok () ∧ (resume st0).2.running_threads = 1 ∧
    (resume st0).2.m_pause = false := by
  have h := C7_resume_spec st0
  exact ⟨(h.2.1 (by decide)).1, (h.2.1 (by decide)).2, h.1.2⟩

/-! ### Claim C8 -/

/-- C8 (amended): a seek failure, a chunk-header read failure (leaving the
zero-initialised chunk record), or an exhausted chunk sequence makes
`read_image_buffer` yield no sample — returned as a status, not an
exception; payload read failures, by contrast, are never checked by the
source, so they do not prevent a sample from being produced. -/
theorem C8_io_failure_yields_no_sample (fm : FileModel) (frame : Sample) :
    (fm.seek_ok frame.offset = false →
      read_image_buffer fm frame = Except.ok none) ∧
    (∀ c rest, c.header_ok = false →
      read_image_buffer_loop fm frame (c :: rest) = Except.ok none) ∧
    read_image_buffer_loop fm frame [] = Except.ok none := by
  refine ⟨?_, ?_, rfl⟩
  · intro h
    simp [read_image_buffer, h]
  · intro c rest h
    simp [read_image_buffer_loop, h]

/-- C8 (witness): with a file model whose seek always fails, decoding the
C8 frame yields no sample and no exception. -/
theorem C8_witness :
    read_image_buffer
      { seek_ok := fun _ => false, chunks_at := fun _ => [],
        decode_frame := fun _ _ => none } frameC8 = Except.ok none := by
  exact (C8_io_failure_yields_no_sample _ frameC8).1 rfl

/-! ### Claim C5 -/

@[simp] theorem notify_deliver_queue (st : DiskRead) (f : Sample)
    (r : List Sample) : (notify_deliver st f r).prefetched_samples = r := by
  simp [notify_deliver, apply_ite]

@[simp] theorem notify_deliver_realtime (st : DiskRead) (f : Sample)
    (r : List Sample) : (notify_deliver st f r).realtime = st.realtime := by
  simp [notify_deliver, apply_ite]

@[simp] theorem notify_deliver_m_pause (st : DiskRead) (f : Sample)
    (r : List Sample) : (notify_deliver st f r).m_pause = st.m_pause := by
  simp [notify_deliver, apply_ite]

theorem notifyAux_drains : ∀ (n : Nat) (st : DiskRead),
    st.prefetched_samples.length ≤ n →
    st.realtime = false → st.m_pause = false →
    (notifyAux n st).1.prefetched_samples = [] ∧
    (notifyAux n st).2 = st.prefetched_samples := by
  intro n
  induction n with
  | zero =>
    intro st hlen hrt hp
    have hnil : st.prefetched_samples = [] := List.length_eq_zero.mp (by omega)
    exact ⟨by simp [notifyAux, hnil], by simp [notifyAux, hnil]⟩
  | succ n ih =>
    intro st hlen hrt hp
    simp only [notifyAux]
    rw [if_neg (by simp [hp])]
    split
    case _ heq => simp [heq]
    case _ front rest heq =>
      rw [if_neg (by simp [hrt])]
      have hlen2 : rest.length ≤ n := by
        rw [heq] at hlen
        simpa using hlen
      have hih := ih (notify_deliver st front rest) (by simpa using hlen2)
        (by simp [hrt]) (by simp [hp])
      exact ⟨by simpa using hih.1, by rw [heq]; simp [hih.2]⟩

/-- C5 (amended): whenever the true delay
`capture_time - base_ts - elapsed` fits a signed 32-bit value, the computed
pacing delay equals it (outside that range the `static_cast<int>` in the
source truncates, as the counterexample shows); and with realtime mode off
the delay is ignored: the delivery loop empties the whole queue, delivering
every buffered sample in FIFO order without waiting. -/
theorem C5_pacing_delay (ct base el : Nat) (st : DiskRead)
    (hct : ct < U64) (hb : base < U64) (hel : el < U64)
    (hlo : -(2147483648 : Int) ≤ (ct : Int) - (base : Int) - (el : Int))
    (hhi : (ct : Int) - (base : Int) - (el : Int) < 2147483648)
    (hrt : st.realtime = false) (hp : st.m_pause = false) :
    calc_sleep_time ct base el = (ct : Int) - (base : Int) - (el : Int) ∧
    (notify_available_samples st).1.prefetched_samples = [] ∧
    (notify_available_samples st).2 = st.prefetched_samples := by
  refine ⟨?_, (notifyAux_drains _ st (le_refl _) hrt hp).1,
    (notifyAux_drains _ st (le_refl _) hrt hp).2⟩
  simp only [calc_sleep_time, u64sub, toInt32, U64, U32] at *
  split_ifs with h <;> omega

/-- C5 (counterexample to the claim as stated): a buffered sample whose true
delay is `+2^31` (far in the future) gets computed delay `-2^31` — "due now"
— because the source truncates the 64-bit difference through
`static_cast<int>`; so the computed delay does not always equal
`capture_time - base - elapsed`. -/
theorem C5_truncation_counterexample :
    calc_sleep_time 2147483648 0 0 = -2147483648 ∧
    ((2147483648 : Int) - 0 - 0 > 0) ∧
    calc_sleep_time 2147483648 0 0 ≠ (2147483648 : Int) - 0 - 0 := by
  decide

/-- C5 (witness): an in-range delay is computed exactly, and the
non-realtime state `stC5` delivers its whole queue. -/
theorem C5_witness :
    calc_sleep_time 100 10 20 = 70 ∧
    (notify_available_samples stC5).1.prefetched_samples = [] ∧
    (notify_available_samples stC5).2 = stC5.prefetched_samples := by
  have h := C5_pacing_delay 100 10 20 stC5 (by decide) (by decide) (by decide)
    (by decide) (by decide) (by decide) (by decide)
  exact ⟨by rw [h.1]; decide, h.2.1, h.2.2⟩

/-! ### Claim C2 witness -/

/-- C2 (witness): on the concrete state `stC1` with `ts = 20`, the scan
anchors at position 4 — the first Image descriptor whose frame timestamp
reaches 20 — and the amended theorem's conclusions evaluate there. -/
theorem C2_witness :
    (scan_by_time_stamp 20 (pauseOp stC1)).1 = some (4, 0) ∧
    ((stC1.samples_desc ++ stC1.pending).getD 4 defaultSample).time_stamp ≥
      (20 : Int) := by
  refine ⟨by decide, ?_⟩
  have h := (C2_anchor_on_frame_time_stamp fm0 stC1 20 (fun _ => rfl)).1 4 0
    (by decide)
  exact h.2.2.1

/-- C8 (counterexample to the claim as stated): the chunk stream served for
`frameC8` declares a 100-byte payload of which the read delivers zero bytes
(a read failure), yet `read_image_buffer` still returns a sample — the
payload read status is discarded by the source — contradicting that every
read failure during decode yields no sample. -/
theorem C8_payload_read_failure_counterexample :
    fmC8.chunks_at frameC8.offset =
      [{ header_ok := true, id := chunk_sample_data, size := 100,
         payload := [] }] ∧
    read_image_buffer fmC8 frameC8 =
      Except.ok (some { frameC8 with data := [] }) ∧
    read_image_buffer fmC8 frameC8 ≠ Except.ok none := by
  refine ⟨rfl, rfl, fun h => ?_⟩
  exact Option.noConfusion (Except.ok.inj h)

/-! ### Claim C10 -/

theorem astore_self {α : Type} : ∀ (m : List (Nat × α)) (k : Nat) (v : α),
    alookup m k = some v → astore m k v = m := by
  intro m
  induction m with
  | nil => intro k v h; simp [alookup] at h
  | cons p rest ih =>
    intro k v h
    obtain ⟨k', w⟩ := p
    by_cases hk : k' = k
    · subst hk
      obtain rfl : w = v := by simpa [alookup] using h
      simp [astore]
    · simp only [alookup, if_neg hk] at h
      simp [astore, hk, ih k v h]

theorem indexUntilComplete_of_complete : ∀ (n : Nat) (st : DiskRead) (b : Nat),
    st.is_index_complete = true → indexUntilComplete n st b = st := by
  intro n st b h
  cases n with
  | zero => rfl
  | succ n => simp [indexUntilComplete, h]

theorem indexUntilComplete_completes : ∀ (n : Nat) (st : DiskRead) (b : Nat),
    1 ≤ b → st.pending.length < n →
    (indexUntilComplete n st b).is_index_complete = true := by
  intro n
  induction n with
  | zero => intro st b hb hn; omega
  | succ n ih =>
    intro st b hb hn
    by_cases hc : st.is_index_complete = true
    · simp [indexUntilComplete, hc]
    · have hc' : st.is_index_complete = false := by simpa using hc
      simp only [indexUntilComplete, hc', Bool.false_eq_true, if_false]
      by_cases hc2 : (index_next_samples st b).is_index_complete = true
      · rw [indexUntilComplete_of_complete n _ b hc2]
        exact hc2
      · apply ih _ b hb
        rw [index_next_eq_of_not_complete b hc'] at hc2 ⊢
        simp only [List.length_drop]
        simp only [List.isEmpty_iff, List.drop_eq_nil_iff] at hc2
        omega

theorem indexUntilComplete_wf : ∀ (n : Nat) (st : DiskRead) (b : Nat),
    WFState st → WFState (indexUntilComplete n st b) := by
  intro n
  induction n with
  | zero => intro st b h; exact h
  | succ n ih =>
    intro st b h
    by_cases hc : st.is_index_complete = true
    · simpa [indexUntilComplete, hc] using h
    · simp only [indexUntilComplete, if_neg hc]
      exact ih _ b (index_next_wf b h)

/-- C10 (confirmed): `query_number_of_frames` returns the frame count
declared in the stream's header info whenever it is nonzero, leaving the
engine state completely untouched (no indexing); only when the declared
count is zero does it force indexing to run to completion — the final state
is index-complete with nothing pending — and return the size of that
stream's (now fully built) image index. -/
theorem C10_query_number_of_frames (st : DiskRead) (s : Nat) (si : StreamInfo)
    (hwf : WFState st) (hlk : alookup st.streams_infos s = some si) :
    (si.nframes > 0 → query_number_of_frames st s = (si.nframes, st)) ∧
    (si.nframes = 0 →
      (query_number_of_frames st s).2.is_index_complete = true ∧
      (query_number_of_frames st s).2.pending = [] ∧
      (query_number_of_frames st s).1 =
        ((alookup (query_number_of_frames st s).2.image_indices s).getD
          []).length) := by
  have hmod : amodify st.streams_infos s { nframes := 0 } id =
      st.streams_infos := by
    unfold amodify
    rw [hlk]
    exact astore_self st.streams_infos s si hlk
  constructor
  · intro hpos
    simp only [query_number_of_frames]
    rw [hlk]
    simp only [Option.getD_some]
    rw [hmod, if_pos hpos]
  · intro hzero
    simp only [query_number_of_frames]
    rw [hlk]
    simp only [Option.getD_some]
    rw [hmod, if_neg (by omega)]
    have hcomp := indexUntilComplete_completes (st.pending.length + 1)
      { st with streams_infos := st.streams_infos }
      4294967295 (by norm_num) (by simp)
    exact ⟨hcomp, indexUntilComplete_wf _ _ _ hwf hcomp, rfl⟩

/-- C10 (witness): on `stC10`, stream 0's declared count 7 is returned with
the state untouched, while stream 1 (declared count 0) forces full indexing
and returns its image-index size 2. -/
theorem C10_witness :
    query_number_of_frames stC10 0 = (7, stC10) ∧
    (query_number_of_frames stC10 1).2.is_index_complete = true ∧
    (query_number_of_frames stC10 1).1 = 2 := by
  have hwf : WFState stC10 := by intro h; exact absurd h (by decide)
  refine ⟨(C10_query_number_of_frames stC10 0 { nframes := 7 } hwf
    (by decide)).1 (by decide), ?_, by decide⟩
  exact ((C10_query_number_of_frames stC10 1 { nframes := 0 } hwf
    (by decide)).2 rfl).1

/-! ### Claim C6 -/

@[simp] theorem notify_deliver_desc (st : DiskRead) (f : Sample)
    (r : List Sample) : (notify_deliver st f r).samples_desc = st.samples_desc := by
  simp [notify_deliver, apply_ite]

@[simp] theorem notify_deliver_pending (st : DiskRead) (f : Sample)
    (r : List Sample) : (notify_deliver st f r).pending = st.pending := by
  simp [notify_deliver, apply_ite]

@[simp] theorem notify_deliver_complete (st : DiskRead) (f : Sample)
    (r : List Sample) :
    (notify_deliver st f r).is_index_complete = st.is_index_complete := by
  simp [notify_deliver, apply_ite]

@[simp] theorem notify_deliver_sinfos (st : DiskRead) (f : Sample)
    (r : List Sample) : (notify_deliver st f r).streams_infos = st.streams_infos := by
  simp [notify_deliver, apply_ite]

@[simp] theorem notify_deliver_eof_set (st : DiskRead) (f : Sample)
    (r : List Sample) :
    (notify_deliver st f r).eof_callback_set = st.eof_callback_set := by
  simp [notify_deliver, apply_ite]

@[simp] theorem notify_deliver_cursor (st : DiskRead) (f : Sample)
    (r : List Sample) :
    (notify_deliver st f r).samples_desc_index = st.samples_desc_index := by
  simp [notify_deliver, apply_ite]

/-- Fields of the engine state that `notify_available_samples` never
touches. -/
theorem notifyAux_fields : ∀ (n : Nat) (st : DiskRead),
    (notifyAux n st).1.samples_desc = st.samples_desc ∧
    (notifyAux n st).1.pending = st.pending ∧
    (notifyAux n st).1.is_index_complete = st.is_index_complete ∧
    (notifyAux n st).1.streams_infos = st.streams_infos ∧
    (notifyAux n st).1.eof_callback_set = st.eof_callback_set ∧
    (notifyAux n st).1.m_pause = st.m_pause ∧
    (notifyAux n st).1.realtime = st.realtime ∧
    (notifyAux n st).1.samples_desc_index = st.samples_desc_index := by
  intro n
  induction n with
  | zero => intro st; exact ⟨rfl, rfl, rfl, rfl, rfl, rfl, rfl, rfl⟩
  | succ n ih =>
    intro st
    simp only [notifyAux]
    by_cases hp : st.m_pause
    · rw [if_pos hp]
      exact ⟨rfl, rfl, rfl, rfl, rfl, rfl, rfl, rfl⟩
    · rw [if_neg hp]
      split
      · exact ⟨rfl, rfl, rfl, rfl, rfl, rfl, rfl, rfl⟩
      case _ front rest heq =>
        split
        · exact ⟨rfl, rfl, rfl, rfl, rfl, rfl, rfl, rfl⟩
        · have h2 := ih (notify_deliver st front rest)
          simpa using h2

/-- Fields of the engine state that the `read_next_sample` indexing top-up
never touches. -/
theorem ensure_indexed_fields : ∀ (n : Nat) (st : DiskRead),
    (ensure_indexed n st).prefetched_samples = st.prefetched_samples ∧
    (ensure_indexed n st).active_streams_info = st.active_streams_info ∧
    (ensure_indexed n st).streams_infos = st.streams_infos ∧
    (ensure_indexed n st).eof_callback_set = st.eof_callback_set ∧
    (ensure_indexed n st).m_pause = st.m_pause ∧
    (ensure_indexed n st).realtime = st.realtime ∧
    (ensure_indexed n st).samples_desc_index = st.samples_desc_index := by
  intro n
  induction n with
  | zero => intro st; exact ⟨rfl, rfl, rfl, rfl, rfl, rfl, rfl⟩
  | succ n ih =>
    intro st
    simp only [ensure_indexed]
    split
    · have h2 := ih (index_next_samples st NUMBER_OF_SAMPLES_TO_INDEX)
      simpa using h2
    · exact ⟨rfl, rfl, rfl, rfl, rfl, rfl, rfl⟩

/-- Fields of the engine state that the pacing loop never touches. -/
theorem pace_loop_fields : ∀ (fuel : Nat) (st : DiskRead),
    (pace_loop fuel st).prefetched_samples = st.prefetched_samples ∧
    (pace_loop fuel st).active_streams_info = st.active_streams_info ∧
    (pace_loop fuel st).streams_infos = st.streams_infos ∧
    (pace_loop fuel st).eof_callback_set = st.eof_callback_set ∧
    (pace_loop fuel st).m_pause = st.m_pause ∧
    (pace_loop fuel st).realtime = st.realtime ∧
    (pace_loop fuel st).samples_desc_index = st.samples_desc_index := by
  intro fuel
  induction fuel with
  | zero => intro st; exact ⟨rfl, rfl, rfl, rfl, rfl, rfl, rfl⟩
  | succ fuel ih =>
    intro st
    simp only [pace_loop]
    split
    · split
      · have h2 := ih { st with now := st.now +
          (calc_sleep_time (st.prefetched_samples.headD defaultSample).capture_time
            st.base_ts (query_run_time st)).toNat }
        simpa using h2
      · have h2 := ih (index_next_samples st NUMBER_OF_SAMPLES_TO_INDEX)
        simpa using h2
    · exact ⟨rfl, rfl, rfl, rfl, rfl, rfl, rfl⟩

/-- Fields of the engine state that a successful `prefetch_sample` never
touches. -/
theorem prefetch_ok_fields
    (read_img : Sample → Except EngineError (Option Sample))
    (st st' : DiskRead) (h : prefetch_sample read_img st = Except.ok st') :
    st'.samples_desc = st.samples_desc ∧
    st'.pending = st.pending ∧
    st'.is_index_complete = st.is_index_complete ∧
    st'.streams_infos = st.streams_infos ∧
    st'.eof_callback_set = st.eof_callback_set ∧
    st'.m_pause = st.m_pause ∧
    st'.realtime = st.realtime := by
  simp only [prefetch_sample] at h
  split at h
  · cases h
    exact ⟨rfl, rfl, rfl, rfl, rfl, rfl, rfl⟩
  · split at h
    · split at h
      · cases h
        exact ⟨rfl, rfl, rfl, rfl, rfl, rfl, rfl⟩
      · split at h
        · cases h
        · cases h
          exact ⟨rfl, rfl, rfl, rfl, rfl, rfl, rfl⟩
        · cases h
          exact ⟨rfl, rfl, rfl, rfl, rfl, rfl, rfl⟩
    · split at h <;> cases h <;>
        exact ⟨rfl, rfl, rfl, rfl, rfl, rfl, rfl⟩
    · split at h <;> cases h <;>
        exact ⟨rfl, rfl, rfl, rfl, rfl, rfl, rfl⟩
    · cases h
      exact ⟨rfl, rfl, rfl, rfl, rfl, rfl, rfl⟩

/-- A successful `read_next_sample` call preserves the completion-callback
registration. -/
theorem read_next_sample_eof_set (fm : FileModel) (st st' : DiskRead)
    (more : Bool) (evs : List Sample)
    (h : read_next_sample fm st = Except.ok (more, st', evs)) :
    st'.eof_callback_set = st.eof_callback_set := by
  have h1 : (notify_available_samples st).1.eof_callback_set =
      st.eof_callback_set :=
    (notifyAux_fields st.prefetched_samples.length st).2.2.2.2.1
  simp only [read_next_sample] at h
  split at h
  · cases h
    exact ((ensure_indexed_fields _ _).2.2.2.1).trans h1
  · split at h
    · cases h
    · rename_i st2 hpre
      cases h
      have h2 : st2.eof_callback_set = st.eof_callback_set := by
        have h3 := (prefetch_ok_fields _ _ _ hpre).2.2.2.2.1
        exact (h3.trans ((ensure_indexed_fields _ _).2.2.2.1)).trans h1
      split
      · exact ((pace_loop_fields _ _).2.2.2.1).trans h2
      · exact h2

/-- The sample events alone never contain the completion event. -/
theorem count_eof_map_sample (l : List Sample) :
    (l.map PlaybackEvent.sample).count PlaybackEvent.eof = 0 := by
  rw [List.count_eq_zero]
  intro hmem
  obtain ⟨s, _, hs⟩ := List.mem_map.mp hmem
  cases hs

/-- One run of the read loop fires the completion event at most once; when
it fires, the final state is paused and the callback was registered on
entry. -/
theorem read_loop_eof_once (fm : FileModel) : ∀ (fuel : Nat) (st st' : DiskRead)
    (evs : List PlaybackEvent),
    read_thread_loop fm fuel st = Except.ok (st', evs) →
    evs.count PlaybackEvent.eof ≤ 1 ∧
    (PlaybackEvent.eof ∈ evs →
      st'.m_pause = true ∧ st.eof_callback_set = true) := by
  intro fuel
  induction fuel with
  | zero =>
    intro st st' evs h
    simp only [read_thread_loop] at h
    cases h
    simp
  | succ fuel ih =>
    intro st st' evs h
    simp only [read_thread_loop] at h
    split at h
    · cases h
      simp
    · split at h
      · cases h
      · rename_i more st1 delivered hread
        split at h
        · rcases hloop : read_thread_loop fm fuel st1 with e | ⟨st2, evs2⟩
          · rw [hloop] at h
            have h' : (Except.error e :
                Except EngineError (DiskRead × List PlaybackEvent)) =
                Except.ok (st', evs) := h
            cases h'
          · rw [hloop] at h
            have h' : Except.ok (st2, delivered.map PlaybackEvent.sample ++ evs2) =
                Except.ok (st', evs) := h
            injection h' with h2
            injection h2 with hst hevs
            subst hevs
            have hih := ih st1 st2 evs2 hloop
            have hpres := read_next_sample_eof_set fm st st1 more delivered hread
            constructor
            · rw [List.count_append, count_eof_map_sample]
              have hc1 := hih.1
              omega
            · intro hmem
              rw [List.mem_append] at hmem
              rcases hmem with hmem | hmem
              · exfalso
                obtain ⟨s, _, hs⟩ := List.mem_map.mp hmem
                cases hs
              · have hm := hih.2 hmem
                exact ⟨hst ▸ hm.1, hpres ▸ hm.2⟩
        · split at h
          · cases h
          case _ hset =>
            cases h
            have hpres := read_next_sample_eof_set fm st st1 more delivered hread
            constructor
            · rw [List.count_append, count_eof_map_sample]
              simp
            · intro _
              refine ⟨rfl, ?_⟩
              rw [← hpres]
              simpa using hset

/-- C6 (confirmed): when the read loop reaches end of file (the
no-more-data result with an empty queue) it invokes the completion callback
exactly once and transitions to the paused (idle) state; reaching end of
file with no registered completion callback raises the distinct fatal error
`eofCallbackNull` before any callback fires; and across any run of the
loop the completion event occurs at most once, with the callback having
been registered.  (Seeks invoke no callback at all in the engine: the
completion event is produced only by `read_thread_loop`.) -/
theorem C6_eof_callback (fm : FileModel) (fuel : Nat) (st : DiskRead) :
    (∀ st' evs, read_thread fm fuel st = Except.ok (st', evs) →
      evs.count PlaybackEvent.eof ≤ 1 ∧
      (PlaybackEvent.eof ∈ evs →
        st'.m_pause = true ∧ st.eof_callback_set = true)) ∧
    (∀ st1 delivered, st.m_pause = false →
      read_next_sample fm st = Except.ok (false, st1, delivered) →
      (st.eof_callback_set = false →
        read_thread_loop fm (fuel + 1) st = Except.error EngineError.eofCallbackNull) ∧
      (st.eof_callback_set = true →
        read_thread_loop fm (fuel + 1) st =
          Except.ok ({ st1 with m_pause := true },
            delivered.map PlaybackEvent.sample ++ [PlaybackEvent.eof]))) := by
  constructor
  · intro st' evs h
    have hres := read_loop_eof_once fm fuel _ st' evs h
    exact ⟨hres.1, fun hm => ⟨(hres.2 hm).1, (hres.2 hm).2⟩⟩
  · intro st1 delivered hp hread
    have hpres := read_next_sample_eof_set fm st st1 false delivered hread
    have hstep : read_thread_loop fm (fuel + 1) st =
        (if ¬ st1.eof_callback_set then Except.error EngineError.eofCallbackNull
         else Except.ok ({ st1 with m_pause := true },
           delivered.map PlaybackEvent.sample ++ [PlaybackEvent.eof])) := by
      simp only [read_thread_loop]
      rw [if_neg (by simp [hp]), hread]
      rfl
    constructor
    · intro hset
      rw [hstep, if_pos (by simp [hpres, hset])]
    · intro hset
      rw [hstep, if_neg (by simp [hpres, hset])]

/-- C6 (witness): running the loop on the empty fully-indexed recording
`stC6` reaches end of file immediately: exactly one completion event fires
and the loop ends paused. -/
theorem C6_witness :
    read_thread_loop fm0 1 stC6 =
      Except.ok ({ (notify_available_samples stC6).1 with m_pause := true },
        [PlaybackEvent.eof]) ∧
    stC6.eof_callback_set = true := by
  have h := (C6_eof_callback fm0 0 stC6).2 (notify_available_samples stC6).1 []
    (by decide) (by decide)
  refine ⟨?_, by decide⟩
  have h2 := h.2 (by decide)
  simpa using h2

/-! ### Claim C9 -/

theorem astore_mem {α : Type} : ∀ (m : List (Nat × α)) (k : Nat) (v : α)
    (p : Nat × α), p ∈ astore m k v → p = (k, v) ∨ p ∈ m := by
  intro m
  induction m with
  | nil =>
    intro k v p hp
    simp [astore] at hp
    simp [hp]
  | cons q rest ih =>
    intro k v p hp
    obtain ⟨k', w⟩ := q
    by_cases hk : k' = k
    · subst hk
      simp [astore] at hp
      rcases hp with h1 | h2
      · exact Or.inl (by simp [h1])
      · exact Or.inr (List.mem_cons_of_mem _ h2)
    · simp only [astore, if_neg hk, List.mem_cons] at hp
      rcases hp with h1 | h2
      · exact Or.inr (by simp [h1])
      · rcases ih k v p h2 with h | h
        · exact Or.inl h
        · exact Or.inr (List.mem_cons_of_mem _ h)

theorem aerase_subset {α : Type} : ∀ (m : List (Nat × α)) (k : Nat)
    (p : Nat × α), p ∈ aerase m k → p ∈ m := by
  intro m
  induction m with
  | nil => intro k p hp; simp [aerase] at hp
  | cons q rest ih =>
    intro k p hp
    obtain ⟨k', w⟩ := q
    by_cases hk : k' = k
    · subst hk
      simp [aerase] at hp
      exact List.mem_cons_of_mem _ hp
    · simp only [aerase, if_neg hk, List.mem_cons] at hp
      rcases hp with hp | hp
      · exact List.mem_cons.mpr (Or.inl hp)
      · exact List.mem_cons_of_mem _ (ih k p hp)

theorem amodify_mem {α : Type} (m : List (Nat × α)) (k : Nat) (d : α)
    (f : α → α) (p : Nat × α) (hp : p ∈ amodify m k d f) :
    p.1 = k ∨ p ∈ m := by
  unfold amodify at hp
  split at hp
  · rcases astore_mem m k _ p hp with h | h
    · exact Or.inl (by simp [h])
    · exact Or.inr h
  · rw [List.mem_append] at hp
    rcases hp with hp | hp
    · exact Or.inr hp
    · simp at hp
      exact Or.inl (by simp [hp])

theorem akeys_astore_superset {α : Type} : ∀ (m : List (Nat × α)) (k : Nat)
    (v : α) (j : Nat), j ∈ akeys m → j ∈ akeys (astore m k v) := by
  intro m
  induction m with
  | nil => intro k v j hj; simp at hj
  | cons q rest ih =>
    intro k v j hj
    obtain ⟨k', w⟩ := q
    by_cases hk : k' = k
    · subst hk
      simpa [astore] using hj
    · simp only [astore, if_neg hk, akeys_cons, List.mem_cons] at hj ⊢
      rcases hj with hj | hj
      · exact Or.inl hj
      · exact Or.inr (ih k v j hj)

theorem akeys_amodify_superset {α : Type} (m : List (Nat × α)) (k : Nat)
    (d : α) (f : α → α) (j : Nat) (hj : j ∈ akeys m) :
    j ∈ akeys (amodify m k d f) := by
  unfold amodify
  split
  · exact akeys_astore_superset m k _ j hj
  · simp only [akeys, List.map_append, List.mem_append]
    exact Or.inl hj

theorem akeys_foldl_amodify_superset {α β : Type} (d : α) :
    ∀ (l : List (Nat × β)) (m : List (Nat × α)) (j : Nat), j ∈ akeys m →
    j ∈ akeys (l.foldl (fun mm p => amodify mm p.1 d id) m) := by
  intro l
  induction l with
  | nil => intro m j hj; exact hj
  | cons q rest ih =>
    intro m j hj
    rw [List.foldl_cons]
    exact ih _ j (akeys_amodify_superset m q.1 d id j hj)

/-- Decoded frames keep the descriptor's stream and type. -/
theorem read_image_buffer_loop_stream (fm : FileModel) (frame : Sample) :
    ∀ (chunks : List ChunkEvent) (s : Sample),
    read_image_buffer_loop fm frame chunks = Except.ok (some s) →
    s.stream = frame.stream ∧ s.type = frame.type := by
  intro chunks
  induction chunks with
  | nil => intro s h; simp [read_image_buffer_loop] at h
  | cons c rest ih =>
    intro s h
    simp only [read_image_buffer_loop] at h
    split at h
    · cases h
    · split at h
      · exact ih s h
      · split at h
        · split at h
          · cases h
            exact ⟨rfl, rfl⟩
          · split at h
            · cases h
              exact ⟨rfl, rfl⟩
            · cases h
          · split at h
            · cases h
              exact ⟨rfl, rfl⟩
            · cases h
          · cases h
        · split at h
          · cases h
          · exact ih s h

theorem read_image_buffer_stream (fm : FileModel) (frame s : Sample)
    (h : read_image_buffer fm frame = Except.ok (some s)) :
    s.stream = frame.stream ∧ s.type = frame.type := by
  unfold read_image_buffer at h
  split at h
  · cases h
  · exact read_image_buffer_loop_stream fm frame _ s h

theorem mem_akeys_of_pair {α : Type} {m : List (Nat × α)} {p : Nat × α}
    (hp : p ∈ m) : p.1 ∈ akeys m := List.mem_map_of_mem Prod.fst hp

theorem mem_keys_imp {α : Type} {m : List (Nat × α)} {k : Nat}
    (hk : k ∈ akeys m) (target : List Nat)
    (h : ∀ p ∈ m, p.1 ∈ target) : k ∈ target := by
  obtain ⟨p, hpm, hpk⟩ := List.mem_map.mp hk
  exact hpk ▸ h p hpm

/-- Transport of the declared-streams invariant along states that agree on
the three fields it mentions. -/
theorem sd_of_fields {a b : DiskRead}
    (hact : a.active_streams_info = b.active_streams_info)
    (hq : a.prefetched_samples = b.prefetched_samples)
    (hs : a.streams_infos = b.streams_infos)
    (h : StreamsDeclared b) : StreamsDeclared a := by
  unfold StreamsDeclared at *
  rw [hact, hq, hs]
  exact h

theorem sd_index_next {st : DiskRead} (b : Nat) (h : StreamsDeclared st) :
    StreamsDeclared (index_next_samples st b) :=
  sd_of_fields (index_next_active st b) (index_next_queue st b)
    (index_next_sinfos st b) h

theorem notify_deliver_active (st : DiskRead) (front : Sample)
    (rest : List Sample) :
    (notify_deliver st front rest).active_streams_info =
      if front.type = SampleType.st_image then
        amodify st.active_streams_info front.stream
          { prefetched_samples_count := 0, image_indices := [],
            stream_info := { nframes := 0 } }
          (fun a => { a with
            prefetched_samples_count := a.prefetched_samples_count - 1 })
      else st.active_streams_info := by
  by_cases hft : front.type = SampleType.st_image <;>
    simp [notify_deliver, hft]

theorem sd_notify_deliver {st : DiskRead} {front : Sample} {rest : List Sample}
    (hq : st.prefetched_samples = front :: rest) (h : StreamsDeclared st) :
    StreamsDeclared (notify_deliver st front rest) := by
  obtain ⟨hact, hque⟩ := h
  constructor
  · intro p hp
    rw [notify_deliver_sinfos]
    rw [notify_deliver_active] at hp
    by_cases hft : front.type = SampleType.st_image
    · rw [if_pos hft] at hp
      rcases amodify_mem _ _ _ _ p hp with h1 | h2
      · rw [h1]
        exact hque front (by rw [hq]; exact List.mem_cons_self front rest) hft
      · exact hact p h2
    · rw [if_neg hft] at hp
      exact hact p hp
  · intro smp hsmp himg
    rw [notify_deliver_sinfos]
    rw [notify_deliver_queue] at hsmp
    exact hque smp (by rw [hq]; exact List.mem_cons_of_mem front hsmp) himg

theorem sd_notifyAux : ∀ (n : Nat) (st : DiskRead), StreamsDeclared st →
    StreamsDeclared (notifyAux n st).1 := by
  intro n
  induction n with
  | zero => intro st h; exact h
  | succ n ih =>
    intro st h
    simp only [notifyAux]
    split
    · exact h
    · split
      · exact h
      · rename_i hnp front rest heq
        split
        · exact h
        · exact ih _ (sd_notify_deliver heq h)

theorem alookup_not_isNone_mem {α : Type} {m : List (Nat × α)} {k : Nat}
    (h : ¬ (alookup m k).isNone = true) : k ∈ akeys m := by
  by_contra hc
  rw [← alookup_eq_none_iff] at hc
  simp [hc] at h

theorem sd_prefetch (fm : FileModel) {st st' : DiskRead}
    (hok : prefetch_sample (read_image_buffer fm) st = Except.ok st')
    (h : StreamsDeclared st) : StreamsDeclared st' := by
  obtain ⟨hact, hque⟩ := h
  simp only [prefetch_sample] at hok
  split at hok
  · cases hok
    exact ⟨hact, hque⟩
  · split at hok
    · split at hok
      · cases hok
        exact ⟨hact, hque⟩
      · rename_i hty hnone
        split at hok
        · cases hok
        · cases hok
          exact ⟨hact, hque⟩
        · rename_i curr hcurr
          cases hok
          constructor
          · intro p hp
            simp only at hp
            rcases amodify_mem _ _ _ _ p hp with h1 | h2
            · rw [h1]
              exact mem_keys_imp (alookup_not_isNone_mem (by simpa using hnone))
                _ hact
            · exact hact p h2
          · intro smp hsmp himg
            simp only [List.mem_append] at hsmp
            rcases hsmp with h1 | h2
            · exact hque smp h1 himg
            · have hcs : smp = curr := by simpa using h2
              subst hcs
              have hstream := (read_image_buffer_stream fm _ _ hcurr).1
              rw [hstream]
              exact mem_keys_imp (alookup_not_isNone_mem (by simpa using hnone))
                _ hact
    · split at hok <;> cases hok
      · rename_i hty hmot
        constructor
        · exact hact
        · intro smp hsmp himg
          simp only [List.mem_append] at hsmp
          rcases hsmp with h1 | h2
          · exact hque smp h1 himg
          · have hcs : smp = st.samples_desc.getD st.samples_desc_index
                defaultSample := by simpa using h2
            rw [hcs, hty] at himg
            cases himg
      · exact ⟨hact, hque⟩
    · split at hok <;> cases hok
      · rename_i hty hmot
        constructor
        · exact hact
        · intro smp hsmp himg
          simp only [List.mem_append] at hsmp
          rcases hsmp with h1 | h2
          · exact hque smp h1 himg
          · have hcs : smp = st.samples_desc.getD st.samples_desc_index
                defaultSample := by simpa using h2
            rw [hcs, hty] at himg
            cases himg
      · exact ⟨hact, hque⟩
    · cases hok
      exact ⟨hact, hque⟩

theorem update_time_base_fields (st : DiskRead) :
    (update_time_base st).active_streams_info = st.active_streams_info ∧
    (update_time_base st).prefetched_samples = st.prefetched_samples ∧
    (update_time_base st).streams_infos = st.streams_infos := by
  simp [update_time_base]

theorem resume_fields (st : DiskRead) :
    (resume st).2.active_streams_info = st.active_streams_info ∧
    (resume st).2.prefetched_samples = st.prefetched_samples ∧
    (resume st).2.streams_infos = st.streams_infos := by
  by_cases h : st.running_threads ≠ 0 <;>
    simp [resume, update_time_base, h]

theorem scanAux_fields (ts : Nat) : ∀ (fuel : Nat) (st : DiskRead)
    (index : Nat) (r : Option (Nat × Nat) × DiskRead),
    scanByTimeStampAux ts fuel st index = some r →
    r.2.active_streams_info = st.active_streams_info ∧
    r.2.prefetched_samples = st.prefetched_samples ∧
    r.2.streams_infos = st.streams_infos := by
  intro fuel
  induction fuel with
  | zero => intro st index r h; simp [scanByTimeStampAux] at h
  | succ fuel ih =>
    intro st index r h
    by_cases h1 : index ≥ st.samples_desc.length
    · by_cases h2 : st.is_index_complete = true
      · rw [scanAux_eof_complete h1 h2] at h
        cases h
        exact ⟨rfl, rfl, rfl⟩
      · rw [scanAux_eof_incomplete h1 h2] at h
        have hres := ih _ index r h
        simpa using hres
    · by_cases h3 : (st.samples_desc.getD index defaultSample).type =
          SampleType.st_image ∧
          (st.samples_desc.getD index defaultSample).time_stamp ≥ (ts : Int)
      · rw [scanAux_hit h1 h3] at h
        cases h
        exact ⟨rfl, rfl, rfl⟩
      · rw [scanAux_miss h1 h3] at h
        exact ih st (index + 1) r h

theorem scan_wrapper_fields (ts : Nat) (st : DiskRead) :
    (scan_by_time_stamp ts st).2.active_streams_info =
      st.active_streams_info ∧
    (scan_by_time_stamp ts st).2.prefetched_samples =
      st.prefetched_samples ∧
    (scan_by_time_stamp ts st).2.streams_infos = st.streams_infos := by
  unfold scan_by_time_stamp
  rcases hr : scanByTimeStampAux ts (scanFuel st 0) st 0 with _ | r
  · exact ⟨rfl, rfl, rfl⟩
  · simpa using scanAux_fields ts _ st 0 r hr

theorem nextScanAux_fields (nActive : Nat) : ∀ (fuel : Nat) (st : DiskRead)
    (index : Nat) (acc : List (Nat × Nat)) (r : List (Nat × Nat) × DiskRead),
    nextScanAux nActive fuel st index acc = some r →
    r.2.active_streams_info = st.active_streams_info ∧
    r.2.prefetched_samples = st.prefetched_samples ∧
    r.2.streams_infos = st.streams_infos := by
  intro fuel
  induction fuel with
  | zero => intro st index acc r h; simp [nextScanAux] at h
  | succ fuel ih =>
    intro st index acc r h
    simp only [nextScanAux] at h
    split at h
    · cases h
      exact ⟨rfl, rfl, rfl⟩
    · split at h
      · split at h
        · cases h
          exact ⟨rfl, rfl, rfl⟩
        · have hres := ih _ index acc r h
          simpa using hres
      · split at h
        · exact ih st (index + 1) _ r h
        · exact ih st (index + 1) acc r h

theorem nextScan_wrapper_fields (st : DiskRead) (nActive index : Nat) :
    (nextScan st nActive index).2.active_streams_info =
      st.active_streams_info ∧
    (nextScan st nActive index).2.prefetched_samples =
      st.prefetched_samples ∧
    (nextScan st nActive index).2.streams_infos = st.streams_infos := by
  unfold nextScan
  rcases hr : nextScanAux nActive (scanFuel st index) st index [] with _ | r
  · exact ⟨rfl, rfl, rfl⟩
  · simpa using nextScanAux_fields nActive _ st index [] r hr

theorem indexUntilComplete_fields : ∀ (n : Nat) (st : DiskRead) (b : Nat),
    (indexUntilComplete n st b).active_streams_info =
      st.active_streams_info ∧
    (indexUntilComplete n st b).prefetched_samples =
      st.prefetched_samples ∧
    (indexUntilComplete n st b).streams_infos = st.streams_infos := by
  intro n
  induction n with
  | zero => intro st b; exact ⟨rfl, rfl, rfl⟩
  | succ n ih =>
    intro st b
    simp only [indexUntilComplete]
    split
    · exact ⟨rfl, rfl, rfl⟩
    · have hres := ih (index_next_samples st b) b
      simpa using hres

theorem indexWhileFrames_fields : ∀ (n : Nat) (st : DiskRead) (i s : Nat),
    (indexWhileFrames n st i s).active_streams_info =
      st.active_streams_info ∧
    (indexWhileFrames n st i s).prefetched_samples =
      st.prefetched_samples ∧
    (indexWhileFrames n st i s).streams_infos = st.streams_infos := by
  intro n
  induction n with
  | zero => intro st i s; exact ⟨rfl, rfl, rfl⟩
  | succ n ih =>
    intro st i s
    simp only [indexWhileFrames]
    split
    · have hres := ih (index_next_samples st NUMBER_OF_SAMPLES_TO_INDEX) i s
      simpa using hres
    · exact ⟨rfl, rfl, rfl⟩

theorem sd_find_nearest (fm : FileModel) {st st' : DiskRead}
    {rv : List (Nat × Sample)} {sample_index stream : Nat}
    (hok : find_nearest_frames fm st sample_index stream =
      Except.ok (rv, st'))
    (h : StreamsDeclared st) : StreamsDeclared st' := by
  simp only [find_nearest_frames] at hok
  split at hok
  · cases hok
  · rename_i rv0 hrv0
    split at hok
    · cases hok
    · rename_i st2 hpre
      cases hok
      apply sd_prefetch fm hpre
      have hf := nextScan_wrapper_fields st st.active_streams_info.length
        sample_index
      constructor
      · intro p hp
        simp only at hp
        rw [hf.1] at hp
        have := h.1 p hp
        simpa [hf.2.2] using this
      · intro smp hsmp himg
        simp at hsmp

theorem sd_pauseOp {st : DiskRead} (h : StreamsDeclared st) :
    StreamsDeclared (pauseOp st) := h

/-- Triple-projection form of `sd_of_fields`. -/
theorem sd_of_fields3 {a b : DiskRead}
    (hf : a.active_streams_info = b.active_streams_info ∧
      a.prefetched_samples = b.prefetched_samples ∧
      a.streams_infos = b.streams_infos)
    (h : StreamsDeclared b) : StreamsDeclared a :=
  sd_of_fields hf.1 hf.2.1 hf.2.2 h

theorem sd_set_frame_by_time_stamp (fm : FileModel) {st st' : DiskRead}
    {rv : List (Nat × Sample)} {ts : Nat}
    (hok : set_frame_by_time_stamp fm st ts = Except.ok (rv, st'))
    (h : StreamsDeclared st) : StreamsDeclared st' := by
  simp only [set_frame_by_time_stamp] at hok
  split at hok
  · rename_i st2 hscan
    cases hok
    have hf := scan_wrapper_fields ts (pauseOp st)
    rw [hscan] at hf
    exact sd_of_fields3 hf (sd_pauseOp h)
  · rename_i index stream st2 hscan
    split at hok
    · cases hok
    · rename_i rv2 st3 hfind
      have hf := scan_wrapper_fields ts (pauseOp st)
      rw [hscan] at hf
      have hsd2 : StreamsDeclared st2 := sd_of_fields3 hf (sd_pauseOp h)
      have hsd3 : StreamsDeclared st3 := sd_find_nearest fm hfind hsd2
      split at hok
      · split at hok
        · cases hok
        · cases hok
          exact sd_of_fields3 (resume_fields st3) hsd3
      · cases hok
        exact hsd3

theorem sd_set_frame_by_index (fm : FileModel) {st st' : DiskRead}
    {rv : List (Nat × Sample)} {index stream_type : Nat}
    (hok : set_frame_by_index fm st index stream_type = Except.ok (rv, st'))
    (h : StreamsDeclared st) : StreamsDeclared st' := by
  simp only [set_frame_by_index] at hok
  split at hok
  · cases hok
    exact sd_of_fields3 (indexWhileFrames_fields _ _ index stream_type) h
  · split at hok
    · cases hok
    · rename_i rv2 st3 hfind
      have hsd3 : StreamsDeclared st3 := sd_find_nearest fm hfind
        (sd_of_fields3 (indexWhileFrames_fields _ _ index stream_type) h)
      split at hok
      · split at hok
        · cases hok
        · cases hok
          exact sd_of_fields3 (resume_fields st3) hsd3
      · cases hok
        exact hsd3

theorem sd_reset {st : DiskRead} (h : StreamsDeclared st) :
    StreamsDeclared (resetOp st) := by
  obtain ⟨hact, _⟩ := h
  constructor
  · intro p hp
    simp only [resetOp] at hp ⊢
    obtain ⟨q, hq, hpq⟩ := List.mem_map.mp hp
    have hq1 : q.1 ∈ akeys st.streams_infos := hact q hq
    have hq2 : p.1 = q.1 := by rw [← hpq]
    rw [hq2]
    exact akeys_foldl_amodify_superset _ _ _ _ hq1
  · intro smp hsmp himg
    simp [resetOp] at hsmp

theorem sd_enable_stream {st st' : DiskRead} {s : Nat} {b : Bool}
    (hok : enable_stream st s b = Except.ok st')
    (h : StreamsDeclared st) : StreamsDeclared st' := by
  obtain ⟨hact, hque⟩ := h
  simp only [enable_stream] at hok
  split at hok
  · cases hok
  · split at hok
    · rename_i hfound _
      cases hok
      constructor
      · intro p hp
        simp only at hp
        rcases astore_mem _ _ _ p hp with h1 | h2
        · rw [h1]
          exact alookup_not_isNone_mem (by simpa using hfound)
        · exact hact p h2
      · exact hque
    · cases hok
      exact ⟨fun p hp => hact p (aerase_subset _ _ p hp), hque⟩

theorem sd_query_frames {st : DiskRead} (s : Nat)
    (h : StreamsDeclared st) :
    StreamsDeclared (query_number_of_frames st s).2 := by
  obtain ⟨hact, hque⟩ := h
  have hsup : ∀ j, j ∈ akeys st.streams_infos →
      j ∈ akeys (amodify st.streams_infos s { nframes := 0 } id) :=
    fun j hj => akeys_amodify_superset _ _ _ _ j hj
  simp only [query_number_of_frames]
  split
  · exact ⟨fun p hp => hsup p.1 (hact p hp),
      fun smp hs hi => hsup _ (hque smp hs hi)⟩
  · refine sd_of_fields3 (indexUntilComplete_fields _ _ 4294967295) ?_
    exact ⟨fun p hp => hsup p.1 (hact p hp),
      fun smp hs hi => hsup _ (hque smp hs hi)⟩

theorem sd_ensure_indexed : ∀ (n : Nat) {st : DiskRead},
    StreamsDeclared st → StreamsDeclared (ensure_indexed n st) := by
  intro n
  induction n with
  | zero => intro st h; exact h
  | succ n ih =>
    intro st h
    simp only [ensure_indexed]
    split
    · exact ih (sd_index_next _ h)
    · exact h

theorem sd_pace_loop : ∀ (fuel : Nat) {st : DiskRead},
    StreamsDeclared st → StreamsDeclared (pace_loop fuel st) := by
  intro fuel
  induction fuel with
  | zero => intro st h; exact h
  | succ fuel ih =>
    intro st h
    simp only [pace_loop]
    split
    · split
      · apply ih
        exact ⟨h.1, h.2⟩
      · exact ih (sd_index_next _ h)
    · exact h

theorem sd_read_next_sample (fm : FileModel) {st st' : DiskRead}
    {more : Bool} {evs : List Sample}
    (hok : read_next_sample fm st = Except.ok (more, st', evs))
    (h : StreamsDeclared st) : StreamsDeclared st' := by
  have h1 : StreamsDeclared (notify_available_samples st).1 :=
    sd_notifyAux st.prefetched_samples.length st h
  simp only [read_next_sample] at hok
  split at hok
  · cases hok
    exact sd_ensure_indexed _ h1
  · split at hok
    · cases hok
    · rename_i st2 hpre
      cases hok
      have h2 : StreamsDeclared st2 :=
        sd_prefetch fm hpre (sd_ensure_indexed _ h1)
      split
      · exact sd_pace_loop _ h2
      · exact h2

theorem sd_read_thread_loop (fm : FileModel) : ∀ (fuel : Nat)
    {st st' : DiskRead} {evs : List PlaybackEvent},
    read_thread_loop fm fuel st = Except.ok (st', evs) →
    StreamsDeclared st → StreamsDeclared st' := by
  intro fuel
  induction fuel with
  | zero =>
    intro st st' evs h hsd
    simp only [read_thread_loop] at h
    cases h
    exact hsd
  | succ fuel ih =>
    intro st st' evs h hsd
    simp only [read_thread_loop] at h
    split at h
    · cases h
      exact hsd
    · split at h
      · cases h
      · rename_i more st1 delivered hread
        have hsd1 := sd_read_next_sample fm hread hsd
        split at h
        · rcases hloop : read_thread_loop fm fuel st1 with e | ⟨st2, evs2⟩
          · rw [hloop] at h
            have h' : (Except.error e :
                Except EngineError (DiskRead × List PlaybackEvent)) =
                Except.ok (st', evs) := h
            cases h'
          · rw [hloop] at h
            have h' : Except.ok (st2, delivered.map PlaybackEvent.sample ++ evs2) =
                Except.ok (st', evs) := h
            injection h' with h2
            injection h2 with hst hevs
            exact hst ▸ ih hloop hsd1
        · split at h
          · cases h
          · cases h
            exact hsd1

/-- C9 (confirmed): `enable_stream(id, true)` for a stream not declared in
the file header fails with the `unsupportedStream` error rather than adding
it, and every engine operation — stream enable/disable, motion toggle,
reset, resume, pause, realtime toggle, indexing, prefetch, delivery, both
seeks, frame-count queries, and whole read-loop runs — preserves the
invariant that every active stream (together with every queued image's
stream, which the delivery path may re-insert into the active map) is
declared in the header. -/
theorem C9_active_subset_declared (fm : FileModel) (st : DiskRead)
    (op : EngineOp) (hinv : StreamsDeclared st) :
    StreamsDeclared (engine_step fm st op) ∧
    (∀ s, s ∉ akeys st.streams_infos →
      enable_stream st s true = Except.error EngineError.unsupportedStream) := by
  constructor
  · cases op with
    | enableStreamOp s b =>
      simp only [engine_step]
      rcases hr : enable_stream st s b with e | st'
      · exact hinv
      · exact sd_enable_stream hr hinv
    | enableMotionOp b => exact hinv
    | resetEngineOp => exact sd_reset hinv
    | resumeEngineOp =>
      have hf := resume_fields st
      exact sd_of_fields hf.1 hf.2.1 hf.2.2 hinv
    | pauseEngineOp => exact sd_pauseOp hinv
    | setRealtimeOp b =>
      have hf := update_time_base_fields { st with realtime := b }
      exact sd_of_fields hf.1 hf.2.1 hf.2.2 hinv
    | indexOp batch => exact sd_index_next batch hinv
    | prefetchOp =>
      simp only [engine_step]
      rcases hr : prefetch_sample (read_image_buffer fm) st with e | st'
      · exact hinv
      · exact sd_prefetch fm hr hinv
    | notifyOp => exact sd_notifyAux _ st hinv
    | seekTimeOp ts =>
      simp only [engine_step]
      rcases hr : set_frame_by_time_stamp fm st ts with e | r
      · exact hinv
      · rcases r with ⟨rv, st'⟩
        exact sd_set_frame_by_time_stamp fm hr hinv
    | seekIndexOp i s =>
      simp only [engine_step]
      rcases hr : set_frame_by_index fm st i s with e | r
      · exact hinv
      · rcases r with ⟨rv, st'⟩
        exact sd_set_frame_by_index fm hr hinv
    | queryFramesOp s => exact sd_query_frames s hinv
    | readThreadOp fuel =>
      simp only [engine_step]
      rcases hr : read_thread fm fuel st with e | r
      · exact hinv
      · rcases r with ⟨st', evs⟩
        exact sd_read_thread_loop fm fuel hr hinv
  · intro s hs
    simp only [enable_stream]
    rw [if_pos (by rw [Option.isNone_iff_eq_none, alookup_eq_none_iff]; exact hs)]

/-! ### Claim C1 -/

theorem nextScanAux_full {nActive fuel : Nat} {st : DiskRead} {index : Nat}
    {acc : List (Nat × Nat)} (h : nActive ≤ acc.length) :
    nextScanAux nActive (fuel + 1) st index acc = some (acc, st) := by
  simp only [nextScanAux]
  rw [if_pos h]

theorem nextScanAux_eof_complete {nActive fuel : Nat} {st : DiskRead}
    {index : Nat} {acc : List (Nat × Nat)} (h1 : ¬ nActive ≤ acc.length)
    (h2 : index + 1 ≥ st.samples_desc.length) (h3 : st.is_index_complete = true) :
    nextScanAux nActive (fuel + 1) st index acc = some (acc, st) := by
  simp only [nextScanAux]
  rw [if_neg h1, if_pos h2, if_pos h3]

theorem nextScanAux_eof_incomplete {nActive fuel : Nat} {st : DiskRead}
    {index : Nat} {acc : List (Nat × Nat)} (h1 : ¬ nActive ≤ acc.length)
    (h2 : index + 1 ≥ st.samples_desc.length)
    (h3 : ¬ st.is_index_complete = true) :
    nextScanAux nActive (fuel + 1) st index acc =
      nextScanAux nActive fuel
        (index_next_samples st NUMBER_OF_SAMPLES_TO_INDEX) index acc := by
  simp only [nextScanAux]
  rw [if_neg h1, if_pos h2, if_neg h3]

theorem nextScanAux_insert {nActive fuel : Nat} {st : DiskRead} {index : Nat}
    {acc : List (Nat × Nat)} (h1 : ¬ nActive ≤ acc.length)
    (h2 : ¬ index + 1 ≥ st.samples_desc.length)
    (h3 : (st.samples_desc.getD (index + 1) defaultSample).type =
        SampleType.st_image ∧
      (alookup acc
        (st.samples_desc.getD (index + 1) defaultSample).stream).isNone) :
    nextScanAux nActive (fuel + 1) st index acc =
      nextScanAux nActive fuel st (index + 1)
        (((st.samples_desc.getD (index + 1) defaultSample).stream, index + 1)
          :: acc) := by
  simp only [nextScanAux]
  rw [if_neg h1, if_neg h2, if_pos h3]

theorem nextScanAux_skip {nActive fuel : Nat} {st : DiskRead} {index : Nat}
    {acc : List (Nat × Nat)} (h1 : ¬ nActive ≤ acc.length)
    (h2 : ¬ index + 1 ≥ st.samples_desc.length)
    (h3 : ¬ ((st.samples_desc.getD (index + 1) defaultSample).type =
        SampleType.st_image ∧
      (alookup acc
        (st.samples_desc.getD (index + 1) defaultSample).stream).isNone)) :
    nextScanAux nActive (fuel + 1) st index acc =
      nextScanAux nActive fuel st (index + 1) acc := by
  simp only [nextScanAux]
  rw [if_neg h1, if_neg h2, if_neg h3]

theorem nextScanAux_isSome (nActive : Nat) : ∀ (fuel : Nat) (st : DiskRead)
    (index : Nat) (acc : List (Nat × Nat)), scanFuel st index ≤ fuel →
    (nextScanAux nActive fuel st index acc).isSome := by
  intro fuel
  induction fuel using Nat.strong_induction_on with
  | _ fuel ih =>
    intro st index acc hle
    obtain _ | fuel := fuel
    · exfalso; simp [scanFuel] at hle
    · by_cases h1 : nActive ≤ acc.length
      · rw [nextScanAux_full h1]; rfl
      · by_cases h2 : index + 1 ≥ st.samples_desc.length
        · by_cases h3 : st.is_index_complete = true
          · rw [nextScanAux_eof_complete h1 h2 h3]; rfl
          · have hlt := @scanFuel_index_next_lt st
              NUMBER_OF_SAMPLES_TO_INDEX index (by simpa using h3)
              (by norm_num [NUMBER_OF_SAMPLES_TO_INDEX])
            rw [nextScanAux_eof_incomplete h1 h2 h3]
            exact ih fuel (Nat.lt_succ_self fuel) _ _ _ (by omega)
        · have hlt := @scanFuel_succ_lt st index (by omega)
          by_cases h3 : (st.samples_desc.getD (index + 1) defaultSample).type =
              SampleType.st_image ∧
            (alookup acc
              (st.samples_desc.getD (index + 1) defaultSample).stream).isNone
          · rw [nextScanAux_insert h1 h2 h3]
            exact ih fuel (Nat.lt_succ_self fuel) _ _ _ (by omega)
          · rw [nextScanAux_skip h1 h2 h3]
            exact ih fuel (Nat.lt_succ_self fuel) _ _ _ (by omega)

theorem prevScan_keeps (desc : List Sample) (nA s v : Nat) :
    ∀ (i : Nat) (acc : List (Nat × Nat)), alookup acc s = some v →
    alookup (prevScan desc nA i acc) s = some v := by
  intro i
  induction i with
  | zero => intro acc h; exact h
  | succ i ih =>
    intro acc h
    simp only [prevScan]
    split
    · exact h
    · split
      · rename_i hcond
        have hne : (desc.getD i defaultSample).stream ≠ s := by
          intro hc
          rw [hc] at hcond
          simp [h] at hcond
        apply ih
        simp only [alookup, if_neg hne]
        exact h
      · exact ih acc h

theorem prevScan_finds (desc : List Sample) (activeKeys : List Nat)
    (s p : Nat) : ∀ (i : Nat) (acc : List (Nat × Nat)),
    (∀ j < i, (desc.getD j defaultSample).type = SampleType.st_image →
      (desc.getD j defaultSample).stream ∈ activeKeys) →
    (akeys acc).Nodup → (∀ k ∈ akeys acc, k ∈ activeKeys) →
    alookup acc s = none → s ∈ activeKeys →
    p < i → (desc.getD p defaultSample).type = SampleType.st_image →
    (desc.getD p defaultSample).stream = s →
    (∀ j < i, p < j →
      ¬ ((desc.getD j defaultSample).type = SampleType.st_image ∧
         (desc.getD j defaultSample).stream = s)) →
    alookup (prevScan desc activeKeys.length i acc) s = some p := by
  intro i
  induction i with
  | zero => intro acc _ _ _ _ _ hp1; omega
  | succ i ih =>
    intro acc himg hnd hsub hmiss hs hp1 hp2 hp3 hno
    have hsnotin : s ∉ akeys acc := (alookup_eq_none_iff acc s).mp hmiss
    have hguard : ¬ activeKeys.length ≤ acc.length := by
      have hlt := length_lt_of_nodup_subset_missing hnd hsub hs hsnotin
      rw [akeys_length] at hlt
      omega
    simp only [prevScan]
    rw [if_neg hguard]
    by_cases hpi : p = i
    · subst hpi
      have hcond : (desc.getD p defaultSample).type = SampleType.st_image ∧
          (alookup acc (desc.getD p defaultSample).stream).isNone := by
        refine ⟨hp2, ?_⟩
        rw [hp3, hmiss]
        rfl
      rw [if_pos hcond]
      apply prevScan_keeps
      rw [hp3]
      simp [alookup]
    · have hplt : p < i := by omega
      by_cases hcond : (desc.getD i defaultSample).type = SampleType.st_image ∧
          (alookup acc (desc.getD i defaultSample).stream).isNone
      · rw [if_pos hcond]
        have htne : (desc.getD i defaultSample).stream ≠ s := by
          intro hc
          exact hno i (by omega) hplt ⟨hcond.1, hc⟩
        have htnotin : (desc.getD i defaultSample).stream ∉ akeys acc :=
          (alookup_eq_none_iff acc _).mp (by
            have := hcond.2
            rwa [Option.isNone_iff_eq_none] at this)
        apply ih
        · intro j hj himgj
          exact himg j (by omega) himgj
        · rw [akeys_cons]
          exact List.nodup_cons.mpr ⟨htnotin, hnd⟩
        · intro k hk
          rw [akeys_cons, List.mem_cons] at hk
          rcases hk with h1 | h2
          · rw [h1]
            exact himg i (by omega) hcond.1
          · exact hsub k h2
        · simp only [alookup, if_neg htne]
          exact hmiss
        · exact hs
        · exact hplt
        · exact hp2
        · exact hp3
        · intro j hj hpj
          exact hno j (by omega) hpj
      · rw [if_neg hcond]
        apply ih
        · intro j hj himgj
          exact himg j (by omega) himgj
        · exact hnd
        · exact hsub
        · exact hmiss
        · exact hs
        · exact hplt
        · exact hp2
        · exact hp3
        · intro j hj hpj
          exact hno j (by omega) hpj

theorem getD_mem_of_lt {l : List Sample} {i : Nat} (h : i < l.length) :
    l.getD i defaultSample ∈ l := by
  rw [List.getD_eq_getElem _ _ h]
  exact List.getElem_mem h

theorem nextScanAux_mono (nActive : Nat) : ∀ (fuel : Nat) (st : DiskRead)
    (index : Nat) (acc : List (Nat × Nat)) (r : List (Nat × Nat) × DiskRead),
    nextScanAux nActive fuel st index acc = some r →
    st.samples_desc.length ≤ r.2.samples_desc.length ∧
    r.2.samples_desc ++ r.2.pending = st.samples_desc ++ st.pending := by
  intro fuel
  induction fuel with
  | zero => intro st index acc r h; simp [nextScanAux] at h
  | succ fuel ih =>
    intro st index acc r h
    by_cases h1 : nActive ≤ acc.length
    · rw [nextScanAux_full h1] at h
      cases h
      exact ⟨le_refl _, rfl⟩
    · by_cases h2 : index + 1 ≥ st.samples_desc.length
      · by_cases h3 : st.is_index_complete = true
        · rw [nextScanAux_eof_complete h1 h2 h3] at h
          cases h
          exact ⟨le_refl _, rfl⟩
        · rw [nextScanAux_eof_incomplete h1 h2 h3] at h
          have hres := ih _ index acc r h
          refine ⟨le_trans ?_ hres.1, hres.2.trans (index_next_full st _)⟩
          exact ( index_next_desc_prefix st _).length_le
      · by_cases h3 : (st.samples_desc.getD (index + 1) defaultSample).type =
            SampleType.st_image ∧
          (alookup acc
            (st.samples_desc.getD (index + 1) defaultSample).stream).isNone
        · rw [nextScanAux_insert h1 h2 h3] at h
          exact ih st (index + 1) _ r h
        · rw [nextScanAux_skip h1 h2 h3] at h
          exact ih st (index + 1) acc r h

theorem nextScanAux_keeps (nActive s v : Nat) : ∀ (fuel : Nat)
    (st : DiskRead) (index : Nat) (acc : List (Nat × Nat))
    (r : List (Nat × Nat) × DiskRead),
    alookup acc s = some v →
    nextScanAux nActive fuel st index acc = some r →
    alookup r.1 s = some v := by
  intro fuel
  induction fuel with
  | zero => intro st index acc r _ h; simp [nextScanAux] at h
  | succ fuel ih =>
    intro st index acc r hv h
    by_cases h1 : nActive ≤ acc.length
    · rw [nextScanAux_full h1] at h
      cases h
      exact hv
    · by_cases h2 : index + 1 ≥ st.samples_desc.length
      · by_cases h3 : st.is_index_complete = true
        · rw [nextScanAux_eof_complete h1 h2 h3] at h
          cases h
          exact hv
        · rw [nextScanAux_eof_incomplete h1 h2 h3] at h
          exact ih _ index acc r hv h
      · by_cases h3 : (st.samples_desc.getD (index + 1) defaultSample).type =
            SampleType.st_image ∧
          (alookup acc
            (st.samples_desc.getD (index + 1) defaultSample).stream).isNone
        · rw [nextScanAux_insert h1 h2 h3] at h
          have hne : (st.samples_desc.getD (index + 1) defaultSample).stream ≠
              s := by
            intro hc
            rw [hc, hv] at h3
            simp at h3
          apply ih st (index + 1) _ r _ h
          simp only [alookup, if_neg hne]
          exact hv
        · rw [nextScanAux_skip h1 h2 h3] at h
          exact ih st (index + 1) acc r hv h

theorem nextScanAux_finds (activeKeys : List Nat) (s n : Nat)
    (full : List Sample) : ∀ (fuel : Nat) (st : DiskRead) (index : Nat)
    (acc : List (Nat × Nat)) (r : List (Nat × Nat) × DiskRead),
    nextScanAux activeKeys.length fuel st index acc = some r →
    WFState st →
    st.samples_desc ++ st.pending = full →
    (∀ smp ∈ full, smp.type = SampleType.st_image →
      smp.stream ∈ activeKeys) →
    (akeys acc).Nodup → (∀ k ∈ akeys acc, k ∈ activeKeys) →
    alookup acc s = none → s ∈ activeKeys →
    index < n → n < full.length →
    (full.getD n defaultSample).type = SampleType.st_image →
    (full.getD n defaultSample).stream = s →
    (∀ j < n, index < j →
      ¬ ((full.getD j defaultSample).type = SampleType.st_image ∧
         (full.getD j defaultSample).stream = s)) →
    alookup r.1 s = some n ∧ n < r.2.samples_desc.length ∧
    r.2.samples_desc ++ r.2.pending = full := by
  intro fuel
  induction fuel with
  | zero => intro st index acc r h; simp [nextScanAux] at h
  | succ fuel ih =>
    intro st index acc r h hwf hfull hall hnd hsub hmiss hs hidx hn himgn
      hstrn hno
    have hsnotin : s ∉ akeys acc := (alookup_eq_none_iff acc s).mp hmiss
    have h1 : ¬ activeKeys.length ≤ acc.length := by
      have hlt := length_lt_of_nodup_subset_missing hnd hsub hs hsnotin
      rw [akeys_length] at hlt
      omega
    by_cases h2 : index + 1 ≥ st.samples_desc.length
    · by_cases h3 : st.is_index_complete = true
      · exfalso
        have hpend : st.pending = [] := hwf h3
        rw [hpend, List.append_nil] at hfull
        rw [← hfull] at hn
        omega
      · rw [nextScanAux_eof_incomplete h1 h2 h3] at h
        exact ih _ index acc r h (index_next_wf _ hwf)
          ((index_next_full st _).trans hfull) hall hnd hsub hmiss hs hidx hn
          himgn hstrn hno
    · have h2' : index + 1 < st.samples_desc.length := by omega
      have hfsmp : full.getD (index + 1) defaultSample =
          st.samples_desc.getD (index + 1) defaultSample := by
        rw [← hfull]
        exact List.getD_append _ _ _ _ h2'
      by_cases hni : index + 1 = n
      · have h3 : (st.samples_desc.getD (index + 1) defaultSample).type =
            SampleType.st_image ∧
          (alookup acc
            (st.samples_desc.getD (index + 1) defaultSample).stream).isNone := by
          rw [← hfsmp, hni]
          refine ⟨himgn, ?_⟩
          rw [hstrn, hmiss]
          rfl
        rw [nextScanAux_insert h1 h2 h3] at h
        have hlook : alookup
            (((st.samples_desc.getD (index + 1) defaultSample).stream, index + 1)
              :: acc) s = some (index + 1) := by
          have hts : (st.samples_desc.getD (index + 1) defaultSample).stream =
              s := by
            rw [← hfsmp, hni]
            exact hstrn
          simp only [alookup]
          rw [if_pos hts]
        have hkeep := nextScanAux_keeps activeKeys.length s (index + 1) fuel
          st (index + 1) _ r hlook h
        have hmono := nextScanAux_mono activeKeys.length fuel st (index + 1)
          _ r h
        refine ⟨by rw [hkeep, hni], by omega, hmono.2.trans hfull⟩
      · have hlt : index + 1 < n := by omega
        by_cases h3 : (st.samples_desc.getD (index + 1) defaultSample).type =
            SampleType.st_image ∧
          (alookup acc
            (st.samples_desc.getD (index + 1) defaultSample).stream).isNone
        · rw [nextScanAux_insert h1 h2 h3] at h
          have htne : (st.samples_desc.getD (index + 1) defaultSample).stream ≠
              s := by
            intro hc
            refine hno (index + 1) hlt (by omega) ?_
            rw [hfsmp]
            exact ⟨h3.1, hc⟩
          have htnotin : (st.samples_desc.getD (index + 1) defaultSample).stream
              ∉ akeys acc := (alookup_eq_none_iff acc _).mp (by
            have h4 := h3.2
            rwa [Option.isNone_iff_eq_none] at h4)
          apply ih st (index + 1) _ r h hwf hfull hall
          · rw [akeys_cons]
            exact List.nodup_cons.mpr ⟨htnotin, hnd⟩
          · intro k hk
            rw [akeys_cons, List.mem_cons] at hk
            rcases hk with hk1 | hk2
            · rw [hk1]
              refine hall _ ?_ ?_
              · rw [← hfsmp]
                exact getD_mem_of_lt
                  (by rw [← hfull, List.length_append]; omega)
              · exact h3.1
            · exact hsub k hk2
          · simp only [alookup, if_neg htne]
            exact hmiss
          · exact hs
          · exact hlt
          · exact hn
          · exact himgn
          · exact hstrn
          · intro j hj hij
            exact hno j hj (by omega)
        · rw [nextScanAux_skip h1 h2 h3] at h
          exact ih st (index + 1) acc r h hwf hfull hall hnd hsub hmiss hs
            hlt hn himgn hstrn (fun j hj hij => hno j hj (by omega))

/-- C9 (witness): on the concrete state `stC4` (streams 0 and 1 declared,
stream 0 active, one queued image of stream 0... none), enabling the
undeclared stream 7 fails, and a prefetch step preserves the invariant. -/
theorem C9_witness :
    StreamsDeclared (engine_step fm0 stC4 EngineOp.prefetchOp) ∧
    enable_stream stC4 7 true = Except.error EngineError.unsupportedStream := by
  have h := C9_active_subset_declared fm0 stC4 EngineOp.prefetchOp
    (by constructor <;> decide)
  exact ⟨h.1, h.2 7 (by decide)⟩

/-- C1 (corrected): provided every Image sample of the file belongs to an
active stream (the scans' early-stop bookkeeping counts any stream they
encounter, so Image samples of inactive streams can cut the scans short
before every active stream is recorded — see the counterexample), with the
anchor inside the indexed descriptors,
the per-stream selection of `find_nearest_frames` for an active stream `s`
other than the anchor's, whose closest preceding and closest following
Image samples sit at positions `p` and `n`, picks whichever of the two has
the smaller absolute capture-time distance to the anchor's capture time,
the preceding one on a tie. -/
theorem C1_nearest_selection (st : DiskRead) (sample_index stream s p n : Nat)
    (full : List Sample)
    (hwf : WFState st)
    (hfull : st.samples_desc ++ st.pending = full)
    (hall : ∀ smp ∈ full, smp.type = SampleType.st_image →
      smp.stream ∈ akeys st.active_streams_info)
    (hs : s ∈ akeys st.active_streams_info)
    (hsne : s ≠ stream)
    (hanchor : sample_index < st.samples_desc.length)
    (hp : isClosestPrevImage full s sample_index p)
    (hn : isClosestNextImage full s sample_index n) :
    find_nearest_selection st sample_index stream s =
      if nat_dist ((full.getD sample_index defaultSample).capture_time)
           ((full.getD p defaultSample).capture_time) >
         nat_dist ((full.getD sample_index defaultSample).capture_time)
           ((full.getD n defaultSample).capture_time)
      then full.getD n defaultSample
      else full.getD p defaultSample := by
  obtain ⟨hp1, hp2, hp3, hpno⟩ := hp
  obtain ⟨hn1, hn2, hn3, hn4, hnno⟩ := hn
  have hfullLen : st.samples_desc.length ≤ full.length := by
    rw [← hfull, List.length_append]
    omega
  have hgetD : ∀ j, j < st.samples_desc.length →
      full.getD j defaultSample = st.samples_desc.getD j defaultSample := by
    intro j hj
    rw [← hfull]
    exact List.getD_append _ _ _ _ hj
  have hsome := nextScanAux_isSome st.active_streams_info.length
    (scanFuel st sample_index) st sample_index [] (le_refl _)
  obtain ⟨r, hr⟩ := Option.isSome_iff_exists.mp hsome
  have hr' : nextScanAux (akeys st.active_streams_info).length
      (scanFuel st sample_index) st sample_index [] = some r := by
    rw [akeys_length]
    exact hr
  have hnil : (akeys ([] : List (Nat × Nat))).Nodup := by simp
  have hnilsub : ∀ k ∈ akeys ([] : List (Nat × Nat)),
      k ∈ akeys st.active_streams_info := by simp
  have hnext := nextScanAux_finds (akeys st.active_streams_info) s n full
    (scanFuel st sample_index) st sample_index [] r hr' hwf hfull hall
    hnil hnilsub rfl hs hn1 hn2 hn3 hn4 hnno
  obtain ⟨hfound, hnlen, hrfull⟩ := hnext
  have hmono := (nextScanAux_mono (akeys st.active_streams_info).length
    (scanFuel st sample_index) st sample_index [] r hr').1
  have hprev := prevScan_finds st.samples_desc (akeys st.active_streams_info)
    s p sample_index []
    (fun j hj himgj => by
      rw [← hgetD j (by omega)] at himgj ⊢
      exact hall _ (getD_mem_of_lt (by omega)) himgj)
    hnil hnilsub rfl hs hp1
    (by rw [← hgetD p (by omega)]; exact hp2)
    (by rw [← hgetD p (by omega)]; exact hp3)
    (fun j hj hpj => by
      rw [← hgetD j (by omega)]
      exact hpno j hj hpj)
  rw [akeys_length] at hprev
  have hgetD2 : ∀ j, j < r.2.samples_desc.length →
      full.getD j defaultSample = r.2.samples_desc.getD j defaultSample := by
    intro j hj
    rw [← hrfull]
    exact List.getD_append _ _ _ _ hj
  have hscan : nextScan st st.active_streams_info.length sample_index = r := by
    simp only [nextScan]
    rw [hr]
    rfl
  simp only [find_nearest_selection]
  rw [hscan]
  simp only [nearest_sample_for]
  rw [if_neg hsne, hprev, hfound]
  simp only [Option.getD_some]
  rw [← hgetD2 sample_index (by omega), ← hgetD2 p (by omega),
      ← hgetD2 n hnlen]

/-- C1 (counterexample): on `stC1` only streams 0 and 1 are active, but
Image samples of the inactive streams 2, 3 and 4 also occur; they fill the
backward scan's per-stream table before stream 1 is found, so stream 1's
preceding neighbor falls back to position 0 (`std::map::operator[]`).  The
closest preceding Image of stream 1 before the anchor (position 4, capture
time 20) is position 1 at capture time 19 — distance 1, strictly closer
than the following neighbor at capture time 31 (distance 11) — yet the
engine selects the following sample at capture time 31. -/
theorem C1_counterexample :
    isClosestPrevImage stC1.samples_desc 1 4 1 ∧
    isClosestNextImage stC1.samples_desc 1 4 5 ∧
    nat_dist 20 19 < nat_dist 20 31 ∧
    find_nearest_selection stC1 4 0 1 = img 1 31 31 := by
  refine ⟨?_, ?_, by decide, by decide⟩
  · unfold isClosestPrevImage
    decide
  · unfold isClosestNextImage
    decide

/-- C1 (witness): the spec's own example scenario on `stAB` — image streams
A = 0 at capture times {0, 10, 20, 30} and B = 1 at {0, 11, 19, 31}, both
active with no other streams present; anchoring on A's sample at t = 20
(position 4) selects B's sample at t = 19 (distance 1 beats distance 9 of
the preceding B-sample at t = 11). -/
theorem C1_witness : find_nearest_selection stAB 4 0 1 = img 1 19 19 := by
  have h := C1_nearest_selection stAB 4 0 1 3 5 stAB.samples_desc
    (fun _ => rfl) rfl (by decide) (by decide) (by decide) (by decide)
    (by unfold isClosestPrevImage; decide)
    (by unfold isClosestNextImage; decide)
  exact h.trans (by decide)

end Playback
